import Mathlib

/-!
Verification of the deck-spec normalization algorithm (`app/planner.py`,
`app/ai/prompt.py`) and the flow-diagram layout/rendering engine
(`app/diagram/svg_flow.py`).

The Python source is embedded shallowly: Python `str` values are Lean
`String`s, and the Python string builtins used by the source
(`str.split`, `str.strip`, `str.replace`, `str.startswith`, `str.join`,
slicing) are given executable Lean definitions over `String.data`
(`List Char`) with Python's semantics.  Fallible code (Python code that
can raise `IndexError` / `ZeroDivisionError` / pydantic
`ValidationError`) is embedded as `Option`-returning functions where
`none` marks an escaped exception.
-/

namespace PyStr

/-- Python `str.split()` (no separator): split on runs of whitespace,
dropping empty pieces.  `acc` holds the current in-progress word,
reversed. -/
def wordsAux : List Char → List Char → List (List Char)
  | [], acc => if acc = [] then [] else [acc.reverse]
  | c :: rest, acc =>
    if c.isWhitespace then
      if acc = [] then wordsAux rest [] else acc.reverse :: wordsAux rest []
    else wordsAux rest (c :: acc)

/-- Python `text.split()`. -/
def pyWords (s : String) : List String :=
  (wordsAux s.data []).map fun l => ⟨l⟩

/-- Python `str.split(sep)` for a one-character separator. -/
def splitChAux (sep : Char) : List Char → List (List Char)
  | [] => [[]]
  | c :: rest =>
    match splitChAux sep rest with
    | [] => [[c]]
    | h :: t => if c = sep then [] :: h :: t else (c :: h) :: t

/-- Python `s.split(sep)` for a one-character separator `sep`. -/
def pySplitCh (s : String) (sep : Char) : List String :=
  (splitChAux sep s.data).map fun l => ⟨l⟩

/-- Python `str.strip()` on a character list. -/
def stripList (l : List Char) : List Char :=
  ((l.dropWhile Char.isWhitespace).reverse.dropWhile Char.isWhitespace).reverse

/-- Python `s.strip()`. -/
def pyStrip (s : String) : String := ⟨stripList s.data⟩

/-- Python `sep.join(parts)` on character lists. -/
def joinSep (sep : List Char) : List (List Char) → List Char
  | [] => []
  | [x] => x
  | x :: y :: t => x ++ sep ++ joinSep sep (y :: t)

/-- Python `sep.join(parts)`. -/
def pyJoin (sep : String) (parts : List String) : String :=
  ⟨joinSep sep.data (parts.map String.data)⟩

/-- Python `str.replace(pat, rep)` on character lists: leftmost,
non-overlapping occurrences (for a non-empty `pat`).  Structured with a
fuel argument (the input length suffices, since every step consumes at
least one character) so the definition reduces in the kernel. -/
def replFuel (pat rep : List Char) : Nat → List Char → List Char
  | _, [] => []
  | 0, s => s
  | fuel + 1, c :: rest =>
    if pat ≠ [] ∧ pat.isPrefixOf (c :: rest) then
      rep ++ replFuel pat rep fuel ((c :: rest).drop pat.length)
    else c :: replFuel pat rep fuel rest

/-- Python `str.replace(pat, rep)` on character lists. -/
def replList (pat rep : List Char) (s : List Char) : List Char :=
  replFuel pat rep s.length s

/-- Python `s.replace(pat, rep)`. -/
def pyReplace (s pat rep : String) : String := ⟨replList pat.data rep.data s.data⟩

/-- Python `s.startswith(pre)`. -/
def pyStartsWith (s pre : String) : Bool := pre.data.isPrefixOf s.data

/-- Python `c in s` for a single character. -/
def pyContainsCh (s : String) (c : Char) : Bool := s.data.contains c

/-- Python `a or b` on strings (empty string is falsy). -/
def pyOr (a b : String) : String := if a = "" then b else a

/-- Python `l[:k]` (list slicing with a possibly negative stop index). -/
def pySliceTo {α : Type} (l : List α) (k : Int) : List α :=
  if 0 ≤ k then l.take k.toNat else l.take (l.length - (-k).toNat)

end PyStr

open PyStr

/-! ## Data model (`app/models.py`) -/

/-- `DiagramSpec` (pydantic): node label list plus directed edges by label. -/
structure DiagramSpec where
  nodes : List String
  edges : List (String × String)
  deriving DecidableEq, Repr

/-- `SlideType = Literal["intro", "process", "flow", "summary"]`. -/
inductive SlideType where
  | intro
  | process
  | flow
  | summary
  deriving DecidableEq, Repr

/-- `SlideSpec` (pydantic). -/
structure SlideSpec where
  type : SlideType
  title : String
  content : String
  keywords : List String
  image_query : Option String := none
  image_alt : Option String := none
  image_subject : Option String := none
  image_setting : Option String := none
  image_style : Option String := none
  layout_preference : Option String := none
  emphasis : Option String := none
  diagram : Option DiagramSpec := none
  deriving DecidableEq, Repr

/-- `PresentationSpec` (pydantic). -/
structure PresentationSpec where
  title : String
  slides : List SlideSpec
  deriving DecidableEq, Repr

/-- The pydantic validation constraint on a single slide: a `DiagramSpec`,
when present, must have `nodes` with `min_length=1`. -/
def SlideSpec.validB (s : SlideSpec) : Bool :=
  match s.diagram with
  | none => true
  | some d => ¬ d.nodes.isEmpty

/-- Pydantic validation of `PresentationSpec.model_validate`:
`slides` has `min_length=1` and every diagram has a non-empty node list. -/
def validSlidesB (slides : List SlideSpec) : Bool :=
  ¬ slides.isEmpty && slides.all SlideSpec.validB

/-- A `PresentationSpec` value as pydantic can actually construct it
(every Python `PresentationSpec` satisfies this by construction). -/
def PresentationSpec.Valid (p : PresentationSpec) : Prop :=
  validSlidesB p.slides = true

/-! ## Flow-diagram renderer (`app/diagram/svg_flow.py`) -/

/-- `SvgFlowStyle` (frozen dataclass). -/
structure SvgFlowStyle where
  background_rgb : Nat × Nat × Nat := (255, 255, 255)
  node_fill_rgb : Nat × Nat × Nat := (234, 242, 255)
  node_line_rgb : Nat × Nat × Nat := (79, 129, 189)
  text_rgb : Nat × Nat × Nat := (31, 55, 94)
  font_family : String := "Calibri"
  deriving DecidableEq, Repr

/-- Two-digit lowercase hex rendering of one byte (`f"{v:02x}"`). -/
def hex2 (v : Nat) : String :=
  let s : String := ⟨Nat.toDigits 16 v⟩
  if s.length = 1 then "0" ++ s else s

/-- `_rgb_to_hex`. -/
def rgbToHex (rgb : Nat × Nat × Nat) : String :=
  "#" ++ hex2 rgb.1 ++ hex2 rgb.2.1 ++ hex2 rgb.2.2

/-- The loop of `_wrap_words`, returning the groups of words that make up
each output line, in order (`cur` is the line being accumulated; the final
`if cur: lines.append(...)` is the base case). -/
def wrapAux (max_chars : Int) : List String → List String → List (List String)
  | [], cur => if cur = [] then [] else [cur]
  | w :: ws, cur =>
    let trial := pyStrip (pyJoin " " (cur ++ [w]))
    if cur ≠ [] ∧ (trial.length : Int) > max_chars then
      cur :: wrapAux max_chars ws [w]
    else
      wrapAux max_chars ws (cur ++ [w])

/-- `_wrap_words(text, max_chars)`: greedy word-wrap capped at 3 lines. -/
def wrapWords (text : String) (max_chars : Int) : List String :=
  let words := (pyWords text).filter (fun w => w ≠ "")
  if words = [] then [""]
  else ((wrapAux max_chars words []).map (pyJoin " ")).take 3

/-- `_iter_edges`: keep only entries that are pairs (length-2 tuples or
lists); anything else is dropped. -/
def iterEdges (edges : List (List String)) : List (String × String) :=
  edges.filterMap fun e =>
    match e with
    | [a, b] => some (a, b)
    | _ => none

/-- Columns-per-row selection in `render_flow_svg`
(`node_count <= 4` / `<= 6` / else). -/
def maxPerRow (node_count : Nat) : Nat :=
  if node_count ≤ 4 then node_count
  else if node_count ≤ 6 then 3
  else 4

/-- Layout geometry constants of `render_flow_svg`. -/
def padX : Nat := 100
def padY : Nat := 110
def hgapC : Nat := 80
def vgapC : Nat := 90
def boxW : Nat := 320
def boxH : Nat := 110
def cornerR : Nat := 18

/-- Top-left position of node index `i`
(`x = pad_x + c*(box_w+hgap)`, `y = pad_y + r*(box_h+vgap)` with
`r = i // max_per_row`, `c = i % max_per_row`). -/
def nodePosOf (node_count i : Nat) : Nat × Nat :=
  let m := maxPerRow node_count
  (padX + (i % m) * (boxW + hgapC), padY + (i / m) * (boxH + vgapC))

/-- `cols = min(max_per_row, max(node_count, 1))`. -/
def colsOf (node_count : Nat) : Nat := min (maxPerRow node_count) (max node_count 1)

/-- `rows = max(1, math.ceil(node_count / max_per_row))` (only evaluated
when `max_per_row ≠ 0`; `math.ceil` of a non-negative exact quotient is
ceiling division). -/
def rowsOf (node_count : Nat) : Nat :=
  max 1 ((node_count + maxPerRow node_count - 1) / maxPerRow node_count)

/-- `needed_w = pad_x * 2 + cols * box_w + (cols - 1) * hgap`. -/
def neededW (node_count : Nat) : Nat :=
  padX * 2 + colsOf node_count * boxW + (colsOf node_count - 1) * hgapC

/-- `needed_h = pad_y * 2 + rows * box_h + (rows - 1) * vgap`. -/
def neededH (node_count : Nat) : Nat :=
  padY * 2 + rowsOf node_count * boxH + (rowsOf node_count - 1) * vgapC

/-- `scale = min(width_px / needed_w, height_px / needed_h); scale =
min(scale, 1.0)` — the fit scale computed (and then never used) by
`render_flow_svg`, as an exact rational. -/
def fitScale (width_px height_px needed_w needed_h : Nat) : ℚ :=
  min (min ((width_px : ℚ) / needed_w) ((height_px : ℚ) / needed_h)) 1

/-- The `pos` dictionary of `render_flow_svg`: insertion order is node
order, later bindings overwrite earlier ones. -/
def posList (nodes : List String) : List (String × (Nat × Nat)) :=
  nodes.enum.map fun p => (p.2, nodePosOf nodes.length p.1)

/-- Python `dict` lookup on an insertion-ordered binding list: the last
binding for a key wins. -/
def dictGet {α : Type} (l : List (String × α)) (k : String) : Option α :=
  (l.reverse.find? (fun p => p.1 = k)).map (·.2)

/-- One emitted piece of the SVG document, carrying exactly the data the
corresponding f-string in `render_flow_svg` interpolates. -/
inductive SvgElem where
  /-- the `<svg …>` open tag: `width`, `height`, and the `viewBox`
  dimensions `0 0 view_w view_h` -/
  | header (width_px height_px view_w view_h : Nat)
  /-- the background `<rect>` -/
  | bgRect (view_w view_h : Nat) (fill : String)
  /-- the `<defs>` arrow-marker block -/
  | marker (fill : String)
  /-- one edge `<line>` -/
  | line (x1 y1 x2 y2 : ℚ) (stroke : String)
  /-- one node `<rect>` -/
  | nodeRect (x y w h rx : Nat) (fill stroke : String)
  /-- a node's `<text …>` open tag -/
  | textOpen (x y : ℚ) (fill : String) (font_family : String) (font_size : Nat)
  /-- one `<tspan>` line of a node label -/
  | tspan (x : ℚ) (dy : Nat) (content : String)
  /-- the `</text>` close tag -/
  | textClose
  /-- the `</svg>` close tag -/
  | footer
  deriving DecidableEq, Repr

/-- XML escaping applied to each label line
(`&` → `&amp;`, `<` → `&lt;`, `>` → `&gt;`). -/
def escapeXml (s : String) : String :=
  pyReplace (pyReplace (pyReplace s "&" "&amp;") "<" "&lt;") ">" "&gt;"

/-- The loop body of the edge-drawing loop of `render_flow_svg` for one
edge `e`: `none` is the `continue` taken when either endpoint is missing
from `pos`. -/
def edgeLineElem (nodes : List String) (lineColor : String)
    (e : String × String) : Option SvgElem :=
  match dictGet (posList nodes) e.1, dictGet (posList nodes) e.2 with
    | some (ax, ay), some (bx, b_y) =>
      let src_idx : Nat := if nodes.contains e.1 then nodes.indexOf e.1 else 0
      let dst_idx : Nat := if nodes.contains e.2 then nodes.indexOf e.2 else 0
      let c : ℚ × ℚ × ℚ × ℚ :=
        if dst_idx > src_idx then
          ((ax : ℚ) + boxW, (ay : ℚ) + (boxH : ℚ) / 2, (bx : ℚ), (b_y : ℚ) + (boxH : ℚ) / 2)
        else if dst_idx < src_idx then
          ((ax : ℚ), (ay : ℚ) + (boxH : ℚ) / 2, (bx : ℚ) + boxW, (b_y : ℚ) + (boxH : ℚ) / 2)
        else
          ((ax : ℚ) + (boxW : ℚ) / 2, (ay : ℚ) + boxH, (bx : ℚ) + (boxW : ℚ) / 2, (b_y : ℚ))
      some (SvgElem.line c.1 c.2.1 c.2.2.1 c.2.2.2 lineColor)
    | _, _ => none

/-- The edge `<line>` elements of `render_flow_svg`, in edge order. -/
def edgeElems (nodes : List String) (rawEdges : List (List String))
    (lineColor : String) : List SvgElem :=
  (iterEdges rawEdges).filterMap (edgeLineElem nodes lineColor)

/-- The per-node elements of `render_flow_svg`: rounded rectangle, `<text>`
open tag, one `<tspan>` per wrapped label line, `</text>`. -/
def nodeElems (nodes : List String) (style : SvgFlowStyle) : List SvgElem :=
  nodes.flatMap fun name =>
    match dictGet (posList nodes) name with
    | none => []
    | some (x, y) =>
      let lines := wrapWords name 18
      let font_size : Nat := 34
      let line_h : Nat := 40
      let block_h : Nat := lines.length * line_h
      let start_y : ℚ := (y : ℚ) + ((boxH : ℚ) - (block_h : ℚ)) / 2 + font_size
      [SvgElem.nodeRect x y boxW boxH cornerR (rgbToHex style.node_fill_rgb)
        (rgbToHex style.node_line_rgb),
       SvgElem.textOpen ((x : ℚ) + (boxW : ℚ) / 2) start_y (rgbToHex style.text_rgb)
        style.font_family font_size] ++
      (lines.enum.map fun p =>
        SvgElem.tspan ((x : ℚ) + (boxW : ℚ) / 2) (if p.1 = 0 then 0 else line_h)
          (escapeXml p.2)) ++
      [SvgElem.textClose]

/-- `render_flow_svg(nodes, edges, style, width_px, height_px)`: the
sequence of emitted SVG elements.  `none` models the `ZeroDivisionError`
raised by `math.ceil(node_count / max_per_row)` when `max_per_row = 0`
(which happens exactly when `nodes` is empty). -/
def renderFlowSvg (nodes : List String) (rawEdges : List (List String))
    (style : SvgFlowStyle) (width_px height_px : Nat) : Option (List SvgElem) :=
  let node_count := nodes.length
  if maxPerRow node_count = 0 then none
  else
    let needed_w := neededW node_count
    let needed_h := neededH node_count
    let _scale := fitScale width_px height_px needed_w needed_h
    let lineColor := rgbToHex style.node_line_rgb
    some ([SvgElem.header width_px height_px needed_w needed_h,
           SvgElem.bgRect needed_w needed_h (rgbToHex style.background_rgb),
           SvgElem.marker lineColor] ++
          edgeElems nodes rawEdges lineColor ++
          nodeElems nodes style ++
          [SvgElem.footer])

/-! ## Deterministic fallback deck (`app/ai/prompt.py`, `mock_presentation`) -/

/-- The fixed intro slide of `mock_presentation`. -/
def mockIntroSlide (topic : String) : SlideSpec :=
  { type := SlideType.intro
    title := topic
    content := "An overview of " ++ topic ++ " and why it matters."
    keywords := [topic, "overview"] }

/-- The fixed "Core Components" process slide of `mock_presentation`. -/
def mockCoreSlide : SlideSpec :=
  { type := SlideType.process
    title := "Core Components"
    content := "Identify inputs, steps, and outputs. Then connect them logically."
    keywords := ["inputs", "steps", "outputs"] }

/-- The fixed "End-to-End Flow" slide of `mock_presentation`. -/
def mockFlowSlide : SlideSpec :=
  { type := SlideType.flow
    title := "End-to-End Flow"
    content := "A simple flow diagram showing how the process moves from start to finish."
    keywords := ["flow", "diagram"]
    diagram := some
      { nodes := ["Start", "Input", "Process", "Decision", "Output", "End"]
        edges := [("Start", "Input"), ("Input", "Process"), ("Process", "Decision"),
                  ("Decision", "Output"), ("Output", "End")] } }

/-- A generic padding slide appended by `mock_presentation`'s while-loop
(`i` is the length of the slide list at the moment of the append). -/
def mockPadSlide (i : Nat) : SlideSpec :=
  { type := SlideType.process
    title := "Step " ++ toString i
    content := "Explain one key step with a clear takeaway."
    keywords := ["step", "takeaway"] }

/-- The fixed summary slide of `mock_presentation`. -/
def mockSummarySlide : SlideSpec :=
  { type := SlideType.summary
    title := "Summary"
    content := "Key takeaways and what to remember."
    keywords := ["summary", "recap"] }

/-- `mock_presentation(topic, slide_count)`: three fixed slides, padded with
generic process slides `while len(slides) < max(slide_count - 1, 3)`, then a
summary slide is appended and the list is truncated with
`slides[:slide_count]`. -/
def mockPresentation (topic : String) (slide_count : Int) : PresentationSpec :=
  let base := [mockIntroSlide topic, mockCoreSlide, mockFlowSlide]
  let target : Int := max (slide_count - 1) 3
  let padded := base ++ (List.range (target - 3).toNat).map (fun j => mockPadSlide (3 + j))
  let slides := padded ++ [mockSummarySlide]
  { title := topic, slides := pySliceTo slides slide_count }

/-! ## Spec normalizer (`app/planner.py`, `normalize_presentation_spec`) -/

/-- `PresentationSpec.model_validate` applied to an untrusted document:
returns the document when pydantic validation passes, `none`
(a raised `ValidationError`) otherwise. -/
def validateP (p : PresentationSpec) : Option PresentationSpec :=
  if validSlidesB p.slides then some p else none

/-- The four-bullet placeholder content used for padding slides and for
empty process/summary content. -/
def keyPoints4 : String := "- Key point\n- Key point\n- Key point\n- Key point"

/-- A padding slide appended by the normalizer's while-loop
(`i` is the length of the slide list at the moment of the append). -/
def padProcessSlide (i : Nat) (topic : String) : SlideSpec :=
  { type := SlideType.process
    title := "Step " ++ toString i
    content := keyPoints4
    keywords := [topic, "steps", "process", "overview"] }

/-- Count enforcement: `slides[:slide_count]` when too long, then
`while len(slides) < slide_count: slides.append(...)`. -/
def enforceCount (slides : List SlideSpec) (slide_count : Int) (topic : String) :
    List SlideSpec :=
  let t := if (slides.length : Int) > slide_count then pySliceTo slides slide_count else slides
  t ++ (List.range (slide_count - t.length).toNat).map
        (fun j => padProcessSlide (t.length + j) topic)

/-- `if slides[0].type != "intro": slides[0] = slides[0].model_copy(update=
{"type": "intro"})`. -/
def forceIntro : List SlideSpec → List SlideSpec
  | [] => []
  | s0 :: rest =>
    (if s0.type = SlideType.intro then s0 else { s0 with type := SlideType.intro }) :: rest

/-- `if slides[-1].type != "summary": slides[-1] = slides[-1].model_copy(
update={"type": "summary", "title": "Summary"})`. -/
def forceSummary (slides : List SlideSpec) : List SlideSpec :=
  match h : slides.getLast? with
  | none => slides
  | some s =>
    slides.dropLast ++
      [if s.type = SlideType.summary then s
       else { s with type := SlideType.summary, title := "Summary" }]

/-- Bullet coercion of one process/summary slide's content
(`planner.py` lines 106-125). -/
def bulletize (content : String) : String :=
  let text := pyStrip content
  let text := if text = "" then keyPoints4 else text
  let text :=
    if ¬ pyContainsCh text '\n' then
      let parts := ((pySplitCh (pyReplace text "•" "") '.').map pyStrip).filter
        (fun p => p ≠ "")
      if parts.length ≥ 2 then
        pyJoin "\n" ((parts.take 6).map (fun p => "- " ++ p))
      else "- " ++ text
    else text
  let lines := ((pySplitCh text '\n').map pyStrip).filter (fun ln => ln ≠ "")
  let fixed := (lines.take 8).map fun ln =>
    if pyStartsWith ln "- " ∨ pyStartsWith ln "• " then pyReplace ln "• " "- "
    else "- " ++ ln
  pyJoin "\n" fixed

/-- The bullet-coercion loop: every process/summary slide's content is
replaced by its bulletized form; other slides are untouched. -/
def bulletCoerceAll (slides : List SlideSpec) : List SlideSpec :=
  slides.map fun s =>
    if s.type = SlideType.process ∨ s.type = SlideType.summary then
      { s with content := bulletize s.content }
    else s

/-- The node labels of the diagram template forced onto the mid slide. -/
def flowTemplateNodes : List String := ["Input", "Step 1", "Step 2", "Output", "Result"]

/-- `edges = [(nodes[i], nodes[i+1]) for i in range(len(nodes)-1)]`. -/
def flowTemplateEdges : List (String × String) :=
  (List.range (flowTemplateNodes.length - 1)).filterMap fun i =>
    match flowTemplateNodes.get? i, flowTemplateNodes.get? (i + 1) with
    | some a, some b => some (a, b)
    | _, _ => none

/-- `slides[mid].model_copy(update={"type": "flow", "title": "Process Flow",
"diagram": ...})`. -/
def flowify (s : SlideSpec) : SlideSpec :=
  { s with type := SlideType.flow, title := "Process Flow",
           diagram := some { nodes := flowTemplateNodes, edges := flowTemplateEdges } }

/-- Ensure-at-least-one-flow-slide step (`planner.py` lines 128-139).
`none` models the `IndexError` raised by `slides[mid]` when
`mid >= len(slides)` (possible only for decks of fewer than 2 slides). -/
def ensureFlow (slides : List SlideSpec) : Option (List SlideSpec) :=
  if slides.any (fun s => s.type = SlideType.flow ∧ s.diagram.isSome) then some slides
  else
    let len : Int := slides.length
    let mid : Int := max 1 (min (len - 2) (len / 2))
    if h : mid.toNat < slides.length then
      some (slides.set mid.toNat (flowify (slides.get ⟨mid.toNat, h⟩)))
    else none

/-- `normalize_presentation_spec(spec, topic=..., slide_count=...)`.
`none` models an exception escaping to the caller (an `IndexError` from
`slides[0]` / `slides[mid]`, or a pydantic `ValidationError` raised
outside the final `try`). -/
def normalizePresentationSpec (spec : Option PresentationSpec) (topic : String)
    (slide_count : Int) : Option PresentationSpec :=
  match spec with
  | none => validateP (mockPresentation topic slide_count)
  | some sp =>
    if sp.slides = [] then validateP (mockPresentation topic slide_count)
    else
      let slides := enforceCount sp.slides slide_count topic
      if slides = [] then none
      else
        let slides := forceIntro slides
        let slides := forceSummary slides
        let slides := bulletCoerceAll slides
        match ensureFlow slides with
        | none => none
        | some slides =>
          if validSlidesB slides then some { title := pyOr sp.title topic, slides := slides }
          else validateP (mockPresentation topic slide_count)

/-! ## Basic lemmas about the embedded Python string builtins -/

namespace PyStr

/-- A character list that is one of Python's `split()` words: non-empty and
free of whitespace. -/
def WordChars (w : List Char) : Prop := w ≠ [] ∧ ∀ c ∈ w, ¬ c.isWhitespace

theorem wordsAux_words {l : List Char} :
    ∀ {acc : List Char}, (∀ c ∈ acc, ¬ c.isWhitespace) →
      ∀ w ∈ wordsAux l acc, WordChars w := by
  induction l with
  | nil =>
    intro acc hacc w hw
    by_cases h : acc = []
    · simp [wordsAux, h] at hw
    · simp only [wordsAux, if_neg h, List.mem_singleton] at hw
      subst hw
      exact ⟨by simpa using h, by simpa using hacc⟩
  | cons c rest ih =>
    intro acc hacc w hw
    by_cases hws : c.isWhitespace
    · by_cases h : acc = []
      · simp only [wordsAux, if_pos hws, if_pos h] at hw
        exact ih (by simp) w hw
      · simp only [wordsAux, if_pos hws, if_neg h, List.mem_cons] at hw
        rcases hw with rfl | hw
        · exact ⟨by simpa using h, by simpa using hacc⟩
        · exact ih (by simp) w hw
    · simp only [wordsAux, if_neg hws] at hw
      refine ih ?_ w hw
      intro d hd
      rcases List.mem_cons.mp hd with rfl | hd
      · exact hws
      · exact hacc d hd

theorem pyWords_mem {s : String} {w : String} (hw : w ∈ pyWords s) :
    w.data ≠ [] ∧ ∀ c ∈ w.data, ¬ c.isWhitespace := by
  simp only [pyWords, List.mem_map] at hw
  obtain ⟨l, hl, rfl⟩ := hw
  exact wordsAux_words (by simp) l hl

theorem wordsAux_all_ws {l : List Char} (h : ∀ c ∈ l, c.isWhitespace) :
    wordsAux l [] = [] := by
  induction l with
  | nil => simp [wordsAux]
  | cons c rest ih =>
    have hc : c.isWhitespace := h c (by simp)
    simp only [wordsAux, if_pos hc, if_pos rfl]
    exact ih fun d hd => h d (List.mem_cons_of_mem _ hd)

theorem pyWords_all_ws {s : String} (h : ∀ c ∈ s.data, c.isWhitespace) :
    pyWords s = [] := by
  simp [pyWords, wordsAux_all_ws h]

theorem dropWhile_eq_self_of_head {p : Char → Bool} {l : List Char}
    (h : ∀ c, l.head? = some c → ¬ p c) : l.dropWhile p = l := by
  cases l with
  | nil => rfl
  | cons c rest =>
    have : ¬ p c := h c rfl
    simp [List.dropWhile, this]

theorem stripList_eq_self {l : List Char}
    (h1 : ∀ c, l.head? = some c → ¬ c.isWhitespace)
    (h2 : ∀ c, l.getLast? = some c → ¬ c.isWhitespace) : stripList l = l := by
  unfold stripList
  rw [dropWhile_eq_self_of_head h1]
  rw [dropWhile_eq_self_of_head (by simpa using h2)]
  simp

theorem joinSep_words_bounds {sep : List Char} {parts : List (List Char)}
    (hne : parts ≠ []) (hw : ∀ w ∈ parts, WordChars w) :
    joinSep sep parts ≠ [] ∧
    (∀ c, (joinSep sep parts).head? = some c → ¬ c.isWhitespace) ∧
    (∀ c, (joinSep sep parts).getLast? = some c → ¬ c.isWhitespace) := by
  induction parts with
  | nil => exact absurd rfl hne
  | cons x t ih =>
    cases t with
    | nil =>
      have hx := hw x (by simp)
      refine ⟨hx.1, ?_, ?_⟩
      · intro c hc
        exact hx.2 c (by
          cases hx1 : x with
          | nil => simp [joinSep, hx1] at hc
          | cons a r =>
            simp only [joinSep, hx1] at hc
            simp only [List.head?_cons, Option.some.injEq] at hc
            simp [hx1, ← hc])
      · intro c hc
        refine hx.2 c ?_
        have : (joinSep sep [x]).getLast? = x.getLast? := by simp [joinSep]
        rw [this] at hc
        exact List.mem_of_mem_getLast? hc
    | cons y tt =>
      have ihr := ih (by simp) (fun w hmem => hw w (List.mem_cons_of_mem _ hmem))
      have hx := hw x (by simp)
      have hjoin : joinSep sep (x :: y :: tt) = x ++ (sep ++ joinSep sep (y :: tt)) := by
        simp [joinSep]
      refine ⟨?_, ?_, ?_⟩
      · rw [hjoin]
        intro hcon
        exact hx.1 (List.append_eq_nil.mp hcon).1
      · intro c hc
        rw [hjoin] at hc
        cases hx1 : x with
        | nil => exact absurd hx1 hx.1
        | cons a r =>
          subst hx1
          simp only [List.cons_append, List.head?_cons, Option.some.injEq] at hc
          exact hx.2 c (by simp [← hc])
      · intro c hc
        have hsome : (joinSep sep (y :: tt)).getLast?.isSome = true :=
          List.getLast?_isSome.mpr ihr.1
        rw [hjoin, List.getLast?_append, List.getLast?_append,
            Option.or_of_isSome hsome, Option.or_of_isSome hsome] at hc
        exact ihr.2.2 c hc

theorem pyStrip_join_words {parts : List String}
    (hne : parts ≠ []) (hw : ∀ w ∈ parts, w.data ≠ [] ∧ ∀ c ∈ w.data, ¬ c.isWhitespace) :
    pyStrip (pyJoin " " parts) = pyJoin " " parts := by
  have hmap : parts.map String.data ≠ [] := by
    intro hcon
    exact hne (List.map_eq_nil_iff.mp hcon)
  have hwords : ∀ w ∈ parts.map String.data, WordChars w := by
    intro w hmem
    simp only [List.mem_map] at hmem
    obtain ⟨p, hp, rfl⟩ := hmem
    exact ⟨(hw p hp).1, (hw p hp).2⟩
  obtain ⟨-, h1, h2⟩ := @joinSep_words_bounds " ".data (parts.map String.data) hmap hwords
  simp only [pyStrip, pyJoin]
  congr 1
  exact stripList_eq_self h1 h2

theorem replFuel_congr {pat rep : List Char} :
    ∀ {f1 : Nat} {f2 : Nat} {s : List Char}, s.length ≤ f1 → s.length ≤ f2 →
      replFuel pat rep f1 s = replFuel pat rep f2 s := by
  intro f1
  induction f1 with
  | zero =>
    intro f2 s h1 _
    have hs : s = [] := List.eq_nil_of_length_eq_zero (Nat.le_zero.mp h1)
    subst hs
    cases f2 <;> rfl
  | succ f ih =>
    intro f2 s h1 h2
    cases s with
    | nil => cases f2 <;> rfl
    | cons c rest =>
      cases f2 with
      | zero => simp at h2
      | succ f2' =>
        simp only [replFuel]
        by_cases hcond : pat ≠ [] ∧ pat.isPrefixOf (c :: rest) = true
        · rw [if_pos hcond, if_pos hcond]
          congr 1
          have hplen : 1 ≤ pat.length := by
            have := hcond.1
            cases pat with
            | nil => exact absurd rfl this
            | cons _ _ => simp
          apply ih
          · simp only [List.length_drop, List.length_cons]
            simp only [List.length_cons] at h1
            omega
          · simp only [List.length_drop, List.length_cons]
            simp only [List.length_cons] at h2
            omega
        · rw [if_neg hcond, if_neg hcond]
          congr 1
          apply ih
          · simp only [List.length_cons] at h1
            omega
          · simp only [List.length_cons] at h2
            omega

theorem replList_nil {pat rep : List Char} : replList pat rep [] = [] := rfl

theorem replList_cons_of_not_prefixOf {pat rep : List Char} {c : Char} {rest : List Char}
    (h : ¬ pat.isPrefixOf (c :: rest)) :
    replList pat rep (c :: rest) = c :: replList pat rep rest := by
  unfold replList
  simp only [List.length_cons, replFuel]
  rw [if_neg (by intro hc; exact h hc.2)]

theorem replList_of_prefixOf {pat rep s : List Char}
    (hp : pat ≠ []) (h : pat.isPrefixOf s) (hs : s ≠ []) :
    replList pat rep s = rep ++ replList pat rep (s.drop pat.length) := by
  cases s with
  | nil => exact absurd rfl hs
  | cons c rest =>
    unfold replList
    simp only [List.length_cons, replFuel]
    rw [if_pos ⟨hp, h⟩]
    congr 1
    have hplen : 1 ≤ pat.length := by
      cases pat with
      | nil => exact absurd rfl hp
      | cons _ _ => simp
    apply replFuel_congr
    · simp only [List.length_drop, List.length_cons]
      omega
    · exact le_refl _

theorem pyStartsWith_append (pre x : String) : pyStartsWith (pre ++ x) pre = true := by
  simp only [pyStartsWith, String.data_append]
  exact List.isPrefixOf_iff_prefix.mpr (List.prefix_append _ _)

end PyStr

/-! ## Lemmas about `_wrap_words` -/

/-- The property every word produced by Python's `split()` has. -/
def wordP (w : String) : Prop := w.data ≠ [] ∧ ∀ c ∈ w.data, ¬ c.isWhitespace

theorem wordP_of_mem_pyWords {s w : String} (h : w ∈ pyWords s) : wordP w :=
  PyStr.pyWords_mem h

theorem trial_strip_eq {cur : List String} {w : String}
    (hcur : ∀ x ∈ cur, wordP x) (hw : wordP w) :
    pyStrip (pyJoin " " (cur ++ [w])) = pyJoin " " (cur ++ [w]) := by
  refine PyStr.pyStrip_join_words (by simp) ?_
  intro x hx
  rcases List.mem_append.mp hx with hx | hx
  · exact hcur x hx
  · rw [List.mem_singleton.mp hx]
    exact hw

theorem pyJoin_singleton (sep w : String) : pyJoin sep [w] = w := rfl

/-- The greedy wrapping rule as the specification states it: words
accumulate on the current line while the space-joined trial stays within
the budget; a word whose addition would exceed the budget starts the next
line.  (Definition written from the claim's wording, for comparison with
`wrapAux` from the source.) -/
def greedyWrapClaim (max_chars : Int) : List String → List String → List (List String)
  | [], cur => if cur = [] then [] else [cur]
  | w :: ws, cur =>
    if cur = [] then greedyWrapClaim max_chars ws [w]
    else if ((pyJoin " " (cur ++ [w])).length : Int) ≤ max_chars then
      greedyWrapClaim max_chars ws (cur ++ [w])
    else cur :: greedyWrapClaim max_chars ws [w]

theorem wrapAux_eq_greedy (max_chars : Int) :
    ∀ ws cur, (∀ x ∈ ws, wordP x) → (∀ x ∈ cur, wordP x) →
      wrapAux max_chars ws cur = greedyWrapClaim max_chars ws cur := by
  intro ws
  induction ws with
  | nil =>
    intro cur _ _
    simp [wrapAux, greedyWrapClaim]
  | cons w ws ih =>
    intro cur hws hcur
    have hw : wordP w := hws w (by simp)
    have hws' : ∀ x ∈ ws, wordP x := fun x hx => hws x (List.mem_cons_of_mem _ hx)
    have htrial := trial_strip_eq hcur hw
    by_cases hc : cur = []
    · subst hc
      simp only [wrapAux, greedyWrapClaim, htrial]
      simp only [ne_eq, not_true_eq_false, false_and, if_false, if_pos rfl]
      rw [List.nil_append]
      exact ih [w] hws' (by
        intro x hx
        rw [List.mem_singleton.mp hx]
        exact hw)
    · have hcurw : ∀ x ∈ cur ++ [w], wordP x := by
        intro x hx
        rcases List.mem_append.mp hx with hx | hx
        · exact hcur x hx
        · rw [List.mem_singleton.mp hx]
          exact hw
      by_cases hlen : ((pyJoin " " (cur ++ [w])).length : Int) ≤ max_chars
      · simp only [wrapAux, greedyWrapClaim, htrial, if_neg hc, if_pos hlen]
        have : ¬ (cur ≠ [] ∧ ((pyJoin " " (cur ++ [w])).length : Int) > max_chars) := by
          push_neg
          intro _
          exact hlen
        rw [if_neg this]
        exact ih _ hws' hcurw
      · simp only [wrapAux, greedyWrapClaim, htrial, if_neg hc, if_neg hlen]
        have : (cur ≠ [] ∧ ((pyJoin " " (cur ++ [w])).length : Int) > max_chars) :=
          ⟨hc, by omega⟩
        rw [if_pos this]
        rw [ih [w] hws' (by
          intro x hx
          rw [List.mem_singleton.mp hx]
          exact hw)]

/-- Invariant of the `_wrap_words` loop: every emitted group of words
either joins to a line within the budget or is a single (possibly
over-long) input word. -/
theorem wrapAux_groups {max_chars : Int} (W : List String) :
    ∀ ws cur, (∀ x ∈ ws, x ∈ W) → (∀ x ∈ cur, x ∈ W) →
      (∀ x ∈ W, wordP x) →
      (((pyJoin " " cur).length : Int) ≤ max_chars ∨ ∃ w ∈ W, cur = [w]) →
      ∀ g ∈ wrapAux max_chars ws cur,
        ((pyJoin " " g).length : Int) ≤ max_chars ∨ ∃ w ∈ W, g = [w] := by
  intro ws
  induction ws with
  | nil =>
    intro cur _ _ _ hinv g hg
    by_cases hc : cur = []
    · simp [wrapAux, hc] at hg
    · simp only [wrapAux, if_neg hc, List.mem_singleton] at hg
      subst hg
      exact hinv
  | cons w ws ih =>
    intro cur hws hcur hW hinv g hg
    have hwW : w ∈ W := hws w (by simp)
    have hws' : ∀ x ∈ ws, x ∈ W := fun x hx => hws x (List.mem_cons_of_mem _ hx)
    have hcurw : ∀ x ∈ cur ++ [w], x ∈ W := by
      intro x hx
      rcases List.mem_append.mp hx with hx | hx
      · exact hcur x hx
      · rw [List.mem_singleton.mp hx]
        exact hwW
    have hsingle : ∀ x ∈ [w], x ∈ W := by
      intro x hx
      rw [List.mem_singleton.mp hx]
      exact hwW
    have htrial : pyStrip (pyJoin " " (cur ++ [w])) = pyJoin " " (cur ++ [w]) :=
      trial_strip_eq (fun x hx => hW x (hcur x hx)) (hW w hwW)
    simp only [wrapAux, htrial] at hg
    by_cases hcond : cur ≠ [] ∧ ((pyJoin " " (cur ++ [w])).length : Int) > max_chars
    · rw [if_pos hcond] at hg
      rcases List.mem_cons.mp hg with rfl | hg
      · exact hinv
      · exact ih [w] hws' hsingle hW (Or.inr ⟨w, hwW, rfl⟩) g hg
    · rw [if_neg hcond] at hg
      push_neg at hcond
      by_cases hc : cur = []
      · subst hc
        exact ih [w] hws' (by simpa using hsingle) hW (Or.inr ⟨w, hwW, rfl⟩) g
          (by simpa using hg)
      · exact ih (cur ++ [w]) hws' hcurw hW (Or.inl (by
          have := hcond hc
          omega)) g hg

/-- **C7.** `_wrap_words` returns at most 3 lines; it wraps greedily as the
specification states it (words accumulate on a line while the space-joined
trial length stays within the budget, the word whose addition would exceed
the budget starts the next line, and lines past the third are silently
discarded); and an empty or whitespace-only label yields exactly one line,
the empty string, never zero lines. -/
theorem wrap_words_spec (text : String) (max_chars : Int) :
    (wrapWords text max_chars).length ≤ 3 ∧
    wrapWords text max_chars =
      (if (pyWords text).filter (fun w => w ≠ "") = [] then [""]
       else ((greedyWrapClaim max_chars ((pyWords text).filter (fun w => w ≠ "")) []).map
              (pyJoin " ")).take 3) ∧
    ((∀ c ∈ text.data, c.isWhitespace) → wrapWords text max_chars = [""]) := by
  refine ⟨?_, ?_, ?_⟩
  · by_cases h : (pyWords text).filter (fun w => w ≠ "") = []
    · simp only [wrapWords, if_pos h]
      simp
    · simp only [wrapWords, if_neg h]
      simp [List.length_take_le]
  · by_cases h : (pyWords text).filter (fun w => w ≠ "") = []
    · simp only [wrapWords, if_pos h]
    · simp only [wrapWords, if_neg h]
      rw [wrapAux_eq_greedy max_chars _ []
        (fun x hx => wordP_of_mem_pyWords (List.mem_of_mem_filter hx))
        (by simp)]
  · intro hws
    have h0 : pyWords text = [] := PyStr.pyWords_all_ws hws
    simp [wrapWords, h0]

/-- **C10.** `_wrap_words` never splits inside a word: every returned line
either fits the budget or is literally a single input word (so a word
longer than the budget is emitted unbroken, alone on its line); output
lines are bounded by the budget whenever every individual word fits it;
and for some inputs a returned line strictly exceeds the budget. -/
theorem wrap_words_longword (text : String) (max_chars : Int) (hmc : 0 ≤ max_chars) :
    (∀ ln ∈ wrapWords text max_chars,
        (ln.length : Int) ≤ max_chars ∨ ln ∈ pyWords text) ∧
    ((∀ w ∈ pyWords text, (w.length : Int) ≤ max_chars) →
        ∀ ln ∈ wrapWords text max_chars, (ln.length : Int) ≤ max_chars) ∧
    (∃ ln ∈ wrapWords "supercalifragilistic x" 5, (5 : Int) < ln.length) := by
  have hmain : ∀ ln ∈ wrapWords text max_chars,
      (ln.length : Int) ≤ max_chars ∨ ln ∈ pyWords text := by
    intro ln hln
    by_cases h : (pyWords text).filter (fun w => w ≠ "") = []
    · simp only [wrapWords, if_pos h, List.mem_singleton] at hln
      subst hln
      left
      simpa using hmc
    · simp only [wrapWords, if_neg h] at hln
      have hln' := List.mem_of_mem_take hln
      simp only [List.mem_map] at hln'
      obtain ⟨g, hg, rfl⟩ := hln'
      have := wrapAux_groups ((pyWords text).filter (fun w => w ≠ ""))
        ((pyWords text).filter (fun w => w ≠ "")) [] (fun x hx => hx) (by simp)
        (fun x hx => wordP_of_mem_pyWords (List.mem_of_mem_filter hx))
        (Or.inl (by simpa [pyJoin, PyStr.joinSep] using hmc)) g hg
      rcases this with hle | ⟨w, hwW, rfl⟩
      · exact Or.inl hle
      · right
        rw [pyJoin_singleton]
        exact List.mem_of_mem_filter hwW
  refine ⟨hmain, ?_, ?_⟩
  · intro hall ln hln
    rcases hmain ln hln with hle | hmem
    · exact hle
    · exact hall ln hmem
  · decide

/-- Witness for C7 at a concrete whitespace-only input. -/
theorem wrap_words_spec_witness : wrapWords "   " 18 = [""] :=
  (wrap_words_spec "   " 18).2.2 (by decide)

/-- Witness for C10 at a concrete input containing an over-long word. -/
theorem wrap_words_longword_witness :
    (("supercalifragilistic" : String).length : Int) ≤ 5 ∨
      "supercalifragilistic" ∈ pyWords "supercalifragilistic x" :=
  (wrap_words_longword "supercalifragilistic x" 5 (by decide)).1
    "supercalifragilistic" (by decide)

/-! ## C9: role forcing on first and last slide -/

/-- **C9.** In the normalizer, a slide-0 whose role is not `intro` is
replaced by a copy differing only in its role (record update of `type`),
and a last slide whose role is not `summary` is replaced by a copy whose
role is `summary` and whose title is the fixed label `"Summary"`, all
other fields unchanged. -/
theorem role_forcing_frame :
    (∀ (s0 : SlideSpec) (rest : List SlideSpec), s0.type ≠ SlideType.intro →
        forceIntro (s0 :: rest) = { s0 with type := SlideType.intro } :: rest) ∧
    (∀ (xs : List SlideSpec) (s : SlideSpec), s.type ≠ SlideType.summary →
        forceSummary (xs ++ [s]) =
          xs ++ [{ s with type := SlideType.summary, title := "Summary" }]) := by
  constructor
  · intro s0 rest h
    simp [forceIntro, h]
  · intro xs s h
    unfold forceSummary
    rw [List.getLast?_concat]
    simp [h]

/-- Witness for C9 at concrete slides. -/
theorem role_forcing_frame_witness :
    forceIntro [{ type := SlideType.process, title := "a", content := "b",
                  keywords := [] }] =
      [{ type := SlideType.intro, title := "a", content := "b", keywords := [] }] :=
  role_forcing_frame.1
    { type := SlideType.process, title := "a", content := "b", keywords := [] } []
    (by decide)

/-! ## C8: the computed fit scale is never applied -/

theorem maxPerRow_eq_zero_iff (n : Nat) : maxPerRow n = 0 ↔ n = 0 := by
  unfold maxPerRow
  split
  · omega
  · split <;> omega

/-- **C8.** The fit scale is computed as
`min(width_px/needed_w, height_px/needed_h, 1.0)`, hence never exceeds 1;
and it is never applied: the emitted header's viewBox is always
`0 0 needed_w needed_h`, and everything after the header is independent of
the requested viewport size (so the geometry is identical whether the
computed scale is below 1 or equal to 1). -/
theorem fit_scale_inert (nodes : List String) (rawEdges : List (List String))
    (style : SvgFlowStyle) (width_px height_px width_px' height_px' : Nat) :
    (∀ w h nw nh : Nat, fitScale w h nw nh ≤ 1) ∧
    (nodes ≠ [] →
      (renderFlowSvg nodes rawEdges style width_px height_px).map List.head? =
        some (some (SvgElem.header width_px height_px
          (neededW nodes.length) (neededH nodes.length)))) ∧
    ((renderFlowSvg nodes rawEdges style width_px height_px).map List.tail =
      (renderFlowSvg nodes rawEdges style width_px' height_px').map List.tail) := by
  refine ⟨?_, ?_, ?_⟩
  · intro w h nw nh
    exact min_le_right _ _
  · intro hne
    have hm : maxPerRow nodes.length ≠ 0 := by
      rw [ne_eq, maxPerRow_eq_zero_iff]
      simpa using hne
    simp [renderFlowSvg, if_neg hm]
  · by_cases hm : maxPerRow nodes.length = 0
    · simp [renderFlowSvg, if_pos hm]
    · simp [renderFlowSvg, if_neg hm]

/-- Witness for C8 at a concrete node list and two viewport sizes. -/
theorem fit_scale_inert_witness :
    (renderFlowSvg ["A"] [] {} 1600 900).map List.head? =
      some (some (SvgElem.header 1600 900 (neededW 1) (neededH 1))) :=
  (fit_scale_inert ["A"] [] {} 1600 900 320 240).2.1 (by decide)

/-! ## Lemmas about the position dictionary of `render_flow_svg` -/

theorem find?_enumFrom_reverse {l : List String} (hnd : l.Nodup) {k : String}
    (hk : k ∈ l) :
    ∀ s : Nat, ((l.enumFrom s).reverse.find? (fun p => p.2 = k)) =
      some (s + l.indexOf k, k) := by
  induction l with
  | nil => cases hk
  | cons a t ih =>
    intro s
    rw [List.enumFrom_cons, List.reverse_cons, List.find?_append]
    by_cases hak : a = k
    · subst hak
      have hnt : a ∉ t := (List.nodup_cons.mp hnd).1
      have hnone : (t.enumFrom (s + 1)).reverse.find? (fun p => p.2 = a) = none := by
        rw [List.find?_eq_none]
        intro x hx
        rw [List.mem_reverse] at hx
        have hxt : x.2 ∈ t := by
          have := List.mem_map_of_mem Prod.snd hx
          rwa [List.enumFrom_map_snd] at this
        simp only [decide_eq_true_eq]
        intro hcon
        exact hnt (hcon ▸ hxt)
      rw [hnone, Option.none_or]
      rw [List.indexOf_cons_self]
      simp [List.find?_cons]
    · have hk' : k ∈ t := by
        rcases List.mem_cons.mp hk with h | h
        · exact absurd h.symm hak
        · exact h
      have hnd' : t.Nodup := (List.nodup_cons.mp hnd).2
      rw [ih hnd' hk' (s + 1)]
      rw [show ∀ (a : Nat × String) (o : Option (Nat × String)), (some a).or o = some a
            from fun _ _ => rfl]
      have hidx : (a :: t).indexOf k = t.indexOf k + 1 := by
        rw [List.indexOf_cons]
        have hbeq : (a == k) = false := beq_eq_false_iff_ne.mpr hak
        rw [hbeq]
        rfl
      rw [hidx]
      congr 2
      omega

theorem dictGet_posList_eq {nodes : List String} (hnd : nodes.Nodup) {k : String}
    (hk : k ∈ nodes) :
    dictGet (posList nodes) k =
      some (nodePosOf nodes.length (nodes.indexOf k)) := by
  unfold dictGet posList
  rw [← List.map_reverse, List.find?_map]
  have hcomp :
      ((fun q : String × (Nat × Nat) => decide (q.1 = k)) ∘
        (fun p : Nat × String => (p.2, nodePosOf nodes.length p.1))) =
      fun p : Nat × String => decide (p.2 = k) := rfl
  rw [hcomp]
  have henum : nodes.enum = nodes.enumFrom 0 := rfl
  rw [henum, find?_enumFrom_reverse hnd hk 0]
  simp

theorem dictGet_posList_isSome (nodes : List String) (k : String) :
    (dictGet (posList nodes) k).isSome = true ↔ k ∈ nodes := by
  unfold dictGet posList
  rw [Option.isSome_map', List.find?_isSome]
  constructor
  · rintro ⟨x, hx, hpx⟩
    rw [List.mem_reverse, List.mem_map] at hx
    obtain ⟨p, hp, rfl⟩ := hx
    simp only [decide_eq_true_eq] at hpx
    have : p.2 ∈ nodes.enum.map Prod.snd := List.mem_map_of_mem _ hp
    rw [List.enum_map_snd] at this
    exact hpx ▸ this
  · intro hk
    have : k ∈ nodes.enum.map Prod.snd := by rw [List.enum_map_snd]; exact hk
    rw [List.mem_map] at this
    obtain ⟨p, hp, hpk⟩ := this
    refine ⟨(p.2, nodePosOf nodes.length p.1), ?_, by simp [hpk]⟩
    rw [List.mem_reverse, List.mem_map]
    exact ⟨p, hp, rfl⟩

/-! ## Extraction of line and node-rect elements -/

/-- The endpoint data `(x1, y1, x2, y2)` of a `<line>` element. -/
def lineParams : SvgElem → Option (ℚ × ℚ × ℚ × ℚ)
  | SvgElem.line x1 y1 x2 y2 _ => some (x1, y1, x2, y2)
  | _ => none

/-- The geometry `(x, y, w, h)` of a node `<rect>` element. -/
def nodeRectParams : SvgElem → Option (Nat × Nat × Nat × Nat)
  | SvgElem.nodeRect x y w h _ _ _ => some (x, y, w, h)
  | _ => none

/-- The anchor rule as the specification states it, for an edge whose
both endpoints occur in the node list: with `si`/`di` the 0-based
positions of the endpoints, forward edges run from the source box's
right-middle point to the destination box's left-middle point, backward
edges from the source's left-middle to the destination's right-middle,
and self-loops from the source's bottom-middle to the destination's
top-middle.  Returned as `(x1, y1, x2, y2)`. -/
def claimAnchor (nodes : List String) (e : String × String) : ℚ × ℚ × ℚ × ℚ :=
  let si := nodes.indexOf e.1
  let di := nodes.indexOf e.2
  let ps := nodePosOf nodes.length si
  let pd := nodePosOf nodes.length di
  if di > si then
    ((ps.1 : ℚ) + boxW, (ps.2 : ℚ) + (boxH : ℚ) / 2,
     (pd.1 : ℚ), (pd.2 : ℚ) + (boxH : ℚ) / 2)
  else if di < si then
    ((ps.1 : ℚ), (ps.2 : ℚ) + (boxH : ℚ) / 2,
     (pd.1 : ℚ) + boxW, (pd.2 : ℚ) + (boxH : ℚ) / 2)
  else
    ((ps.1 : ℚ) + (boxW : ℚ) / 2, (ps.2 : ℚ) + boxH,
     (pd.1 : ℚ) + (boxW : ℚ) / 2, (pd.2 : ℚ))

theorem length_filterMap_eq_length_filter {α β : Type} (f : α → Option β)
    (p : α → Bool) (h : ∀ a, (f a).isSome = p a) :
    ∀ l : List α, (l.filterMap f).length = (l.filter p).length := by
  intro l
  induction l with
  | nil => rfl
  | cons a t ih =>
    rw [List.filterMap_cons, List.filter_cons]
    cases hfa : f a with
    | none =>
      have hpa : p a = false := by rw [← h a, hfa]; rfl
      rw [hpa]
      simpa using ih
    | some b =>
      have hpa : p a = true := by rw [← h a, hfa]; rfl
      rw [hpa]
      simpa using ih

theorem filterMap_eq_map_filter {α β : Type} (f : α → Option β) (p : α → Bool)
    (g : α → β) (h : ∀ a, f a = if p a then some (g a) else none) :
    ∀ l : List α, l.filterMap f = (l.filter p).map g := by
  intro l
  induction l with
  | nil => rfl
  | cons a t ih =>
    rw [List.filterMap_cons, List.filter_cons, h a]
    by_cases hpa : p a = true
    · rw [hpa]
      simp [ih]
    · have hpa' : p a = false := by simpa using hpa
      rw [hpa']
      simp [ih]

theorem edgeLineElem_isSome (nodes : List String) (c : String) (e : String × String) :
    (edgeLineElem nodes c e).isSome =
      (decide (e.1 ∈ nodes) && decide (e.2 ∈ nodes)) := by
  unfold edgeLineElem
  cases h1 : dictGet (posList nodes) e.1 with
  | none =>
    have : ¬ e.1 ∈ nodes := by
      rw [← dictGet_posList_isSome nodes e.1, h1]
      simp
    simp [this]
  | some v1 =>
    have hm1 : e.1 ∈ nodes := by
      rw [← dictGet_posList_isSome nodes e.1, h1]
      rfl
    cases h2 : dictGet (posList nodes) e.2 with
    | none =>
      have : ¬ e.2 ∈ nodes := by
        rw [← dictGet_posList_isSome nodes e.2, h2]
        simp
      simp [this, hm1]
    | some v2 =>
      have hm2 : e.2 ∈ nodes := by
        rw [← dictGet_posList_isSome nodes e.2, h2]
        rfl
      obtain ⟨ax, ay⟩ := v1
      obtain ⟨bx, b_y⟩ := v2
      simp [hm1, hm2]

theorem flatMap_eq_nil_of_nil {α β : Type} {g : α → List β} :
    ∀ {l : List α}, (∀ a ∈ l, g a = []) → l.flatMap g = [] := by
  intro l
  induction l with
  | nil => intro _; rfl
  | cons a t ih =>
    intro h
    rw [List.flatMap_cons, h a (by simp), List.nil_append]
    exact ih fun x hx => h x (List.mem_cons_of_mem _ hx)

theorem filterMap_eq_nil_of_none {α β : Type} (f : α → Option β) (l : List α)
    (hl : ∀ a ∈ l, f a = none) : l.filterMap f = [] := by
  induction l with
  | nil => rfl
  | cons a t ih =>
    rw [List.filterMap_cons, hl a (by simp)]
    exact ih fun x hx => hl x (List.mem_cons_of_mem _ hx)

theorem flatMap_eq_map_of_singleton {α β : Type} {g : α → List β} {f : α → β} :
    ∀ {l : List α}, (∀ a ∈ l, g a = [f a]) → l.flatMap g = l.map f := by
  intro l
  induction l with
  | nil => intro _; rfl
  | cons a t ih =>
    intro h
    rw [List.flatMap_cons, h a (by simp), List.map_cons]
    rw [ih fun x hx => h x (List.mem_cons_of_mem _ hx)]
    rfl

theorem contains_eq_true_of_mem {nodes : List String} {k : String} (h : k ∈ nodes) :
    nodes.contains k = true := by
  exact List.elem_iff.mpr h

theorem dictGet_posList_eq_none {nodes : List String} {k : String} (h : k ∉ nodes) :
    dictGet (posList nodes) k = none := by
  rcases hd : dictGet (posList nodes) k with _ | v
  · rfl
  · exact absurd ((dictGet_posList_isSome nodes k).mp (by rw [hd]; rfl)) h

theorem edgeLineElem_eq_claim {nodes : List String} (hnd : nodes.Nodup) (c : String)
    (e : String × String) :
    edgeLineElem nodes c e =
      if (decide (e.1 ∈ nodes) && decide (e.2 ∈ nodes)) = true then
        some (SvgElem.line (claimAnchor nodes e).1 (claimAnchor nodes e).2.1
          (claimAnchor nodes e).2.2.1 (claimAnchor nodes e).2.2.2 c)
      else none := by
  by_cases hm1 : e.1 ∈ nodes
  · by_cases hm2 : e.2 ∈ nodes
    · rw [if_pos (by simp [hm1, hm2])]
      unfold edgeLineElem
      rw [dictGet_posList_eq hnd hm1, dictGet_posList_eq hnd hm2]
      have hc1 := contains_eq_true_of_mem hm1
      have hc2 := contains_eq_true_of_mem hm2
      simp only [hc1, hc2, if_pos]
      unfold claimAnchor
      by_cases hgt : nodes.indexOf e.2 > nodes.indexOf e.1
      · simp [hgt]
      · by_cases hlt : nodes.indexOf e.2 < nodes.indexOf e.1
        · simp [hgt, hlt]
        · simp [hgt, hlt]
    · rw [if_neg (by simp [hm2])]
      unfold edgeLineElem
      rw [dictGet_posList_eq_none hm2]
      rcases dictGet (posList nodes) e.1 with _ | ⟨ax, ay⟩ <;> rfl
  · rw [if_neg (by simp [hm1])]
    unfold edgeLineElem
    rw [dictGet_posList_eq_none hm1]

theorem edgeLineElem_bind_line (nodes : List String) (c : String) (e : String × String) :
    ((edgeLineElem nodes c e).bind lineParams).isSome =
      (decide (e.1 ∈ nodes) && decide (e.2 ∈ nodes)) := by
  unfold edgeLineElem
  cases h1 : dictGet (posList nodes) e.1 with
  | none =>
    have hn1 : ¬ e.1 ∈ nodes := by
      rw [← dictGet_posList_isSome nodes e.1, h1]
      simp
    cases h2 : dictGet (posList nodes) e.2 <;> simp [hn1]
  | some v1 =>
    have hm1 : e.1 ∈ nodes := by
      rw [← dictGet_posList_isSome nodes e.1, h1]
      rfl
    cases h2 : dictGet (posList nodes) e.2 with
    | none =>
      have hn2 : ¬ e.2 ∈ nodes := by
        rw [← dictGet_posList_isSome nodes e.2, h2]
        simp
      obtain ⟨ax, ay⟩ := v1
      simp [hn2]
    | some v2 =>
      have hm2 : e.2 ∈ nodes := by
        rw [← dictGet_posList_isSome nodes e.2, h2]
        rfl
      obtain ⟨ax, ay⟩ := v1
      obtain ⟨bx, b_y⟩ := v2
      simp [hm1, hm2, lineParams]

theorem edgeLineElem_bind_rect (nodes : List String) (c : String) (e : String × String) :
    (edgeLineElem nodes c e).bind nodeRectParams = none := by
  unfold edgeLineElem
  cases h1 : dictGet (posList nodes) e.1 with
  | none => cases h2 : dictGet (posList nodes) e.2 <;> rfl
  | some v1 =>
    cases h2 : dictGet (posList nodes) e.2 with
    | none =>
      obtain ⟨ax, ay⟩ := v1
      rfl
    | some v2 =>
      obtain ⟨ax, ay⟩ := v1
      obtain ⟨bx, b_y⟩ := v2
      rfl

/-- All `<line>` elements of the rendered document come from the edge
loop: the node blocks contribute none. -/
theorem nodeElems_no_lines (nodes : List String) (style : SvgFlowStyle) :
    (nodeElems nodes style).filterMap lineParams = [] := by
  unfold nodeElems
  rw [List.filterMap_flatMap]
  have h : ∀ name ∈ nodes,
      (List.filterMap lineParams
        (match dictGet (posList nodes) name with
         | none => []
         | some (x, y) =>
           let lines := wrapWords name 18
           let font_size : Nat := 34
           let line_h : Nat := 40
           let block_h : Nat := lines.length * line_h
           let start_y : ℚ := (y : ℚ) + ((boxH : ℚ) - (block_h : ℚ)) / 2 + font_size
           [SvgElem.nodeRect x y boxW boxH cornerR (rgbToHex style.node_fill_rgb)
             (rgbToHex style.node_line_rgb),
            SvgElem.textOpen ((x : ℚ) + (boxW : ℚ) / 2) start_y (rgbToHex style.text_rgb)
             style.font_family font_size] ++
           (lines.enum.map fun p =>
             SvgElem.tspan ((x : ℚ) + (boxW : ℚ) / 2) (if p.1 = 0 then 0 else line_h)
               (escapeXml p.2)) ++
           [SvgElem.textClose])) = [] := by
    intro name _
    cases dictGet (posList nodes) name with
    | none => rfl
    | some v =>
      obtain ⟨x, y⟩ := v
      simp only [List.filterMap_append, List.filterMap_cons, List.filterMap_nil]
      rw [List.filterMap_map]
      rw [filterMap_eq_nil_of_none _ (wrapWords name 18).enum (by
        intro p _
        rfl)]
      rfl
  exact flatMap_eq_nil_of_nil h

/-- With distinct labels, the node blocks contribute exactly one rectangle
per node, at the grid position of the node's index. -/
theorem nodeElems_rects {nodes : List String} (hnd : nodes.Nodup) (style : SvgFlowStyle) :
    (nodeElems nodes style).filterMap nodeRectParams =
      (List.range nodes.length).map
        (fun i => ((nodePosOf nodes.length i).1, (nodePosOf nodes.length i).2,
                   boxW, boxH)) := by
  unfold nodeElems
  rw [List.filterMap_flatMap]
  trans (nodes.map fun name =>
      ((nodePosOf nodes.length (nodes.indexOf name)).1,
       (nodePosOf nodes.length (nodes.indexOf name)).2, boxW, boxH))
  · apply flatMap_eq_map_of_singleton
    intro name hmem
    rw [dictGet_posList_eq hnd hmem]
    simp only [List.filterMap_append, List.filterMap_cons, List.filterMap_nil]
    rw [List.filterMap_map]
    rw [filterMap_eq_nil_of_none _ (wrapWords name 18).enum (by
      intro p _
      rfl)]
    rfl
  · apply List.ext_getElem
    · simp
    · intro n h1 h2
      simp only [List.getElem_map, List.getElem_range]
      rw [List.indexOf_getElem hnd]

/-- Axis-aligned rectangle overlap for `(x, y, w, h)` quadruples: the open
interiors intersect on both axes. -/
def rectsOverlap (a b : Nat × Nat × Nat × Nat) : Prop :=
  a.1 < b.1 + b.2.2.1 ∧ b.1 < a.1 + a.2.2.1 ∧
  a.2.1 < b.2.1 + b.2.2.2 ∧ b.2.1 < a.2.1 + a.2.2.2

/-- Two distinct grid cells carry disjoint boxes: the horizontal pitch
(400) exceeds the box width (320) and the vertical pitch (200) exceeds the
box height (110). -/
theorem nodePos_no_overlap {n i j : Nat} (hm : maxPerRow n ≠ 0) (hij : i ≠ j) :
    ¬ rectsOverlap ((nodePosOf n i).1, (nodePosOf n i).2, boxW, boxH)
        ((nodePosOf n j).1, (nodePosOf n j).2, boxW, boxH) := by
  intro hov
  obtain ⟨h1, h2, h3, h4⟩ := hov
  simp only [nodePosOf, padX, padY, boxW, boxH, hgapC, vgapC] at h1 h2 h3 h4
  have hi := Nat.div_add_mod i (maxPerRow n)
  have hj := Nat.div_add_mod j (maxPerRow n)
  have hmpos : 0 < maxPerRow n := Nat.pos_of_ne_zero hm
  set m := maxPerRow n with hmdef
  set ci := i % m with hci
  set cj := j % m with hcj
  set ri := i / m with hri
  set rj := j / m with hrj
  have hceq : ci = cj := by omega
  have hreq : ri = rj := by omega
  apply hij
  rw [← hi, ← hj, hceq, hreq]

theorem renderFlowSvg_some {nodes : List String} {rawEdges : List (List String)}
    {style : SvgFlowStyle} {width_px height_px : Nat}
    (hm : maxPerRow nodes.length ≠ 0) :
    renderFlowSvg nodes rawEdges style width_px height_px =
      some ([SvgElem.header width_px height_px (neededW nodes.length)
               (neededH nodes.length),
             SvgElem.bgRect (neededW nodes.length) (neededH nodes.length)
               (rgbToHex style.background_rgb),
             SvgElem.marker (rgbToHex style.node_line_rgb)] ++
            edgeElems nodes rawEdges (rgbToHex style.node_line_rgb) ++
            nodeElems nodes style ++ [SvgElem.footer]) := by
  simp [renderFlowSvg, if_neg hm]

theorem elems_filterMap_lineParams {nodes : List String} {rawEdges : List (List String)}
    {style : SvgFlowStyle} {width_px height_px : Nat} :
    ([SvgElem.header width_px height_px (neededW nodes.length) (neededH nodes.length),
      SvgElem.bgRect (neededW nodes.length) (neededH nodes.length)
        (rgbToHex style.background_rgb),
      SvgElem.marker (rgbToHex style.node_line_rgb)] ++
     edgeElems nodes rawEdges (rgbToHex style.node_line_rgb) ++
     nodeElems nodes style ++ [SvgElem.footer]).filterMap lineParams =
      (iterEdges rawEdges).filterMap
        (fun e => (edgeLineElem nodes (rgbToHex style.node_line_rgb) e).bind lineParams) := by
  simp only [List.filterMap_append]
  rw [nodeElems_no_lines]
  unfold edgeElems
  rw [List.filterMap_filterMap]
  simp [lineParams]

theorem elems_filterMap_rectParams {nodes : List String} {rawEdges : List (List String)}
    {style : SvgFlowStyle} {width_px height_px : Nat} (hnd : nodes.Nodup) :
    ([SvgElem.header width_px height_px (neededW nodes.length) (neededH nodes.length),
      SvgElem.bgRect (neededW nodes.length) (neededH nodes.length)
        (rgbToHex style.background_rgb),
      SvgElem.marker (rgbToHex style.node_line_rgb)] ++
     edgeElems nodes rawEdges (rgbToHex style.node_line_rgb) ++
     nodeElems nodes style ++ [SvgElem.footer]).filterMap nodeRectParams =
      (List.range nodes.length).map
        (fun i => ((nodePosOf nodes.length i).1, (nodePosOf nodes.length i).2,
                   boxW, boxH)) := by
  simp only [List.filterMap_append]
  rw [nodeElems_rects hnd style]
  unfold edgeElems
  rw [List.filterMap_filterMap]
  rw [filterMap_eq_nil_of_none
    (fun e => (edgeLineElem nodes (rgbToHex style.node_line_rgb) e).bind nodeRectParams)
    (iterEdges rawEdges)
    (fun e _ => edgeLineElem_bind_rect nodes (rgbToHex style.node_line_rgb) e)]
  simp [nodeRectParams]

theorem edgeLineElem_bind_line_eq {nodes : List String} (hnd : nodes.Nodup)
    (c : String) (e : String × String) :
    (edgeLineElem nodes c e).bind lineParams =
      if (decide (e.1 ∈ nodes) && decide (e.2 ∈ nodes)) = true then
        some (claimAnchor nodes e)
      else none := by
  rw [edgeLineElem_eq_claim hnd]
  by_cases h : (decide (e.1 ∈ nodes) && decide (e.2 ∈ nodes)) = true
  · rw [if_pos h, if_pos h]
    rfl
  · rw [if_neg h, if_neg h]
    rfl

/-- **C3 (amended).** For every non-empty list of distinct node labels,
`render_flow_svg` succeeds and places exactly one 320x110 box per node,
node `i` in row `i div columnsPerRow` and column `i mod columnsPerRow` at
position `(pad_x + col*(box_w+hgap), pad_y + row*(box_h+vgap))`, and no
two distinct nodes' rectangles overlap.  (For an empty node list the
computation raises `ZeroDivisionError` instead of succeeding, so the
claim's `nodeCount = 0` case fails; see the counterexample.) -/
theorem layout_grid_boxes (nodes : List String) (rawEdges : List (List String))
    (style : SvgFlowStyle) (width_px height_px : Nat)
    (hne : nodes ≠ []) (hnd : nodes.Nodup) :
    ∃ elems, renderFlowSvg nodes rawEdges style width_px height_px = some elems ∧
      elems.filterMap nodeRectParams =
        (List.range nodes.length).map
          (fun i => ((nodePosOf nodes.length i).1, (nodePosOf nodes.length i).2,
                     boxW, boxH)) ∧
      (elems.filterMap nodeRectParams).Pairwise (fun a b => ¬ rectsOverlap a b) := by
  have hm : maxPerRow nodes.length ≠ 0 := by
    rw [ne_eq, maxPerRow_eq_zero_iff]
    simpa using hne
  refine ⟨_, renderFlowSvg_some hm, ?_, ?_⟩
  · exact elems_filterMap_rectParams hnd
  · rw [elems_filterMap_rectParams hnd]
    rw [List.pairwise_map]
    apply (List.pairwise_lt_range nodes.length).imp
    intro i j hij
    exact nodePos_no_overlap hm (Nat.ne_of_lt hij)

/-- C3's `nodeCount = 0` case is false on the code: `render_flow_svg`
raises `ZeroDivisionError` (division by `max_per_row = 0`) on an empty
node list instead of computing a layout. -/
theorem layout_grid_zero_nodes_counterexample :
    renderFlowSvg [] [] {} 1600 900 = none := rfl

/-- Witness for C3 at two concrete nodes. -/
theorem layout_grid_boxes_witness :
    (renderFlowSvg ["A", "B"] [] {} 1600 900).isSome = true := by
  obtain ⟨elems, h1, -, -⟩ :=
    layout_grid_boxes ["A", "B"] [] {} 1600 900 (by decide) (by decide)
  rw [h1]
  rfl

/-- **C4.** For every edge both of whose endpoint labels occur in the
(distinct-label) node list, the emitted line runs between the anchor
points the specification states: forward edges from the source's
right-middle to the destination's left-middle, backward edges from the
source's left-middle to the destination's right-middle, and self-loops
from the bottom-middle to the top-middle (`claimAnchor` is the anchor
rule transcribed from the specification). -/
theorem edge_anchor_rule (nodes : List String) (rawEdges : List (List String))
    (style : SvgFlowStyle) (width_px height_px : Nat)
    (hne : nodes ≠ []) (hnd : nodes.Nodup) :
    ∃ elems, renderFlowSvg nodes rawEdges style width_px height_px = some elems ∧
      elems.filterMap lineParams =
        ((iterEdges rawEdges).filter
          (fun e => decide (e.1 ∈ nodes) && decide (e.2 ∈ nodes))).map
          (claimAnchor nodes) := by
  have hm : maxPerRow nodes.length ≠ 0 := by
    rw [ne_eq, maxPerRow_eq_zero_iff]
    simpa using hne
  refine ⟨_, renderFlowSvg_some hm, ?_⟩
  rw [elems_filterMap_lineParams]
  exact filterMap_eq_map_filter _ _ _
    (edgeLineElem_bind_line_eq hnd (rgbToHex style.node_line_rgb)) _

/-- Witness for C4 at a concrete two-node, one-edge diagram. -/
theorem edge_anchor_rule_witness :
    (renderFlowSvg ["A", "B"] [["A", "B"]] {} 1600 900).map
        (fun es => es.filterMap lineParams) =
      some [claimAnchor ["A", "B"] ("A", "B")] := by
  obtain ⟨elems, h1, h2⟩ :=
    edge_anchor_rule ["A", "B"] [["A", "B"]] {} 1600 900 (by decide) (by decide)
  rw [h1, Option.map_some', h2]
  rfl

/-- **C5.** The rendered document contains exactly one line element per
edge whose endpoints are both present in the node list; an edge with a
missing endpoint contributes no line element and raises no error. -/
theorem edge_line_count (nodes : List String) (rawEdges : List (List String))
    (style : SvgFlowStyle) (width_px height_px : Nat) (hne : nodes ≠ []) :
    ∃ elems, renderFlowSvg nodes rawEdges style width_px height_px = some elems ∧
      (elems.filterMap lineParams).length =
        ((iterEdges rawEdges).filter
          (fun e => decide (e.1 ∈ nodes) && decide (e.2 ∈ nodes))).length := by
  have hm : maxPerRow nodes.length ≠ 0 := by
    rw [ne_eq, maxPerRow_eq_zero_iff]
    simpa using hne
  refine ⟨_, renderFlowSvg_some hm, ?_⟩
  rw [elems_filterMap_lineParams]
  exact length_filterMap_eq_length_filter _ _
    (edgeLineElem_bind_line nodes (rgbToHex style.node_line_rgb)) _

/-- Witness for C5: one valid edge, one dangling edge, one malformed
entry; exactly one line element results and no error is raised. -/
theorem edge_line_count_witness :
    (renderFlowSvg ["A", "B"] [["A", "B"], ["A", "Z"], ["A"]] {} 1600 900).map
        (fun es => (es.filterMap lineParams).length) = some 1 := by
  obtain ⟨elems, h1, h2⟩ :=
    edge_line_count ["A", "B"] [["A", "B"], ["A", "Z"], ["A"]] {} 1600 900 (by decide)
  rw [h1, Option.map_some', h2]
  rfl

/-! ## Lemmas about bullet coercion -/

/-- The bullet-list shape the specification requires of process/summary
content: a newline-joined list of at most 8 hyphen-prefixed bullets. -/
def BulletContent (content : String) : Prop :=
  ∃ bs : List String, bs.length ≤ 8 ∧ (∀ b ∈ bs, pyStartsWith b "- " = true) ∧
    content = pyJoin "\n" bs

theorem not_isPrefixOf_of_head_ne {a b : Char} {p s : List Char} (h : a ≠ b) :
    ¬ (a :: p).isPrefixOf (b :: s) = true := by
  intro hc
  exact h (List.cons_prefix_cons.mp (List.isPrefixOf_iff_prefix.mp hc)).1

theorem pyReplace_dash_starts {ln : String} (h : pyStartsWith ln "- " = true) :
    pyStartsWith (pyReplace ln "• " "- ") "- " = true := by
  unfold pyStartsWith at h
  have hpre : ("- ".data) <+: ln.data := List.isPrefixOf_iff_prefix.mp h
  obtain ⟨t, ht⟩ := hpre
  have hdata : ln.data = '-' :: ' ' :: t := by
    rw [← ht]
    rfl
  unfold pyStartsWith pyReplace
  rw [hdata]
  rw [PyStr.replList_cons_of_not_prefixOf (not_isPrefixOf_of_head_ne (by decide))]
  rw [PyStr.replList_cons_of_not_prefixOf (not_isPrefixOf_of_head_ne (by decide))]
  simp [List.isPrefixOf]

theorem pyReplace_bullet_starts {ln : String} (h : pyStartsWith ln "• " = true) :
    pyStartsWith (pyReplace ln "• " "- ") "- " = true := by
  unfold pyStartsWith at h
  have hpre : ("• ".data) <+: ln.data := List.isPrefixOf_iff_prefix.mp h
  obtain ⟨t, ht⟩ := hpre
  have hdata : ln.data = '•' :: ' ' :: t := by
    rw [← ht]
    rfl
  unfold pyStartsWith pyReplace
  rw [hdata]
  rw [PyStr.replList_of_prefixOf (by decide) (by rw [← hdata]; exact h) (by simp)]
  simp [List.isPrefixOf]

/-- Every output of `bulletize` is a hyphen-bulleted list of at most 8
bullets. -/
theorem bulletize_bullets (content : String) : BulletContent (bulletize content) := by
  unfold bulletize
  set text1 := pyStrip content with htext1
  set text2 := if text1 = "" then keyPoints4 else text1 with htext2
  set text3 :=
    if ¬ pyContainsCh text2 '\n' then
      let parts := ((pySplitCh (pyReplace text2 "•" "") '.').map pyStrip).filter
        (fun p => p ≠ "")
      if parts.length ≥ 2 then
        pyJoin "\n" ((parts.take 6).map (fun p => "- " ++ p))
      else "- " ++ text2
    else text2 with htext3
  set lines := ((pySplitCh text3 '\n').map pyStrip).filter (fun ln => ln ≠ "") with hlines
  refine ⟨(lines.take 8).map (fun ln =>
    if pyStartsWith ln "- " ∨ pyStartsWith ln "• " then pyReplace ln "• " "- "
    else "- " ++ ln), ?_, ?_, rfl⟩
  · rw [List.length_map]
    exact le_trans (List.length_take_le 8 lines) (le_refl 8)
  · intro b hb
    rw [List.mem_map] at hb
    obtain ⟨ln, _, rfl⟩ := hb
    by_cases hc : pyStartsWith ln "- " = true ∨ pyStartsWith ln "• " = true
    · rw [if_pos hc]
      rcases hc with hc | hc
      · exact pyReplace_dash_starts hc
      · exact pyReplace_bullet_starts hc
    · rw [if_neg hc]
      exact pyStartsWith_append "- " ln

/-- A bullet list is empty or starts with a hyphen bullet. -/
theorem BulletContent_starts {c : String} (h : BulletContent c) :
    c = "" ∨ pyStartsWith c "- " = true := by
  obtain ⟨bs, -, hall, rfl⟩ := h
  cases bs with
  | nil => left; rfl
  | cons b t =>
    right
    have hb := hall b (by simp)
    unfold pyStartsWith at hb ⊢
    have hpre : ("- ".data) <+: b.data := List.isPrefixOf_iff_prefix.mp hb
    apply List.isPrefixOf_iff_prefix.mpr
    refine hpre.trans ?_
    cases t with
    | nil => exact List.prefix_refl _
    | cons y tt =>
      show b.data <+: (pyJoin "\n" (b :: y :: tt)).data
      unfold pyJoin
      show b.data <+: PyStr.joinSep "\n".data (b.data :: (y :: tt).map String.data)
      rw [show PyStr.joinSep "\n".data (b.data :: (y :: tt).map String.data) =
            b.data ++ ("\n".data ++ PyStr.joinSep "\n".data ((y :: tt).map String.data))
          from by simp [PyStr.joinSep]]
      exact List.prefix_append _ _

/-! ## Stage lemmas for the normalizer pipeline -/

theorem forceIntro_cons (s0 : SlideSpec) (rest : List SlideSpec) :
    forceIntro (s0 :: rest) =
      (if s0.type = SlideType.intro then s0 else { s0 with type := SlideType.intro })
        :: rest := rfl

theorem forceSummary_of_getLast {l : List SlideSpec} {g : SlideSpec}
    (h : l.getLast? = some g) :
    forceSummary l = l.dropLast ++
      [if g.type = SlideType.summary then g
       else { g with type := SlideType.summary, title := "Summary" }] := by
  unfold forceSummary
  rw [h]

theorem enforceCount_length (l : List SlideSpec) (k : Int) (hk : 0 ≤ k)
    (topic : String) : (enforceCount l k topic).length = k.toNat := by
  unfold enforceCount pySliceTo
  by_cases h : (l.length : Int) > k
  · rw [if_pos h, if_pos hk]
    simp only [List.length_append, List.length_take, List.length_map, List.length_range]
    omega
  · rw [if_neg h]
    simp only [List.length_append, List.length_map, List.length_range]
    omega

theorem enforceCount_mem {l : List SlideSpec} {k : Int} {topic : String} :
    ∀ s ∈ enforceCount l k topic, s ∈ l ∨ ∃ i, s = padProcessSlide i topic := by
  intro s hs
  unfold enforceCount at hs
  rw [List.mem_append] at hs
  rcases hs with hs | hs
  · by_cases h : (l.length : Int) > k
    · rw [if_pos h] at hs
      unfold pySliceTo at hs
      left
      by_cases hk : 0 ≤ k
      · rw [if_pos hk] at hs
        exact List.mem_of_mem_take hs
      · rw [if_neg hk] at hs
        exact List.mem_of_mem_take hs
    · rw [if_neg h] at hs
      exact Or.inl hs
  · rw [List.mem_map] at hs
    obtain ⟨j, -, rfl⟩ := hs
    exact Or.inr ⟨_, rfl⟩

theorem padProcessSlide_validB (i : Nat) (topic : String) :
    (padProcessSlide i topic).validB = true := rfl

theorem flowify_validB (s : SlideSpec) : (flowify s).validB = true := rfl

theorem bulletCoerce_slide_validB (s : SlideSpec) :
    (if s.type = SlideType.process ∨ s.type = SlideType.summary then
      { s with content := bulletize s.content } else s).validB = s.validB := by
  by_cases h : s.type = SlideType.process ∨ s.type = SlideType.summary
  · rw [if_pos h]
    rfl
  · rw [if_neg h]


/-- `ensureFlow` on a deck of at least 3 slides always succeeds, keeps the
length, the first and the last slide, guarantees a flow slide with a
diagram, and only ever replaces one interior slide by its `flowify`-ed
copy. -/
theorem ensureFlow_facts (l : List SlideSpec) (hlen : 3 ≤ l.length) :
    ∃ out, ensureFlow l = some out ∧
      out.length = l.length ∧
      out.head? = l.head? ∧
      out.getLast? = l.getLast? ∧
      (∃ s ∈ out, s.type = SlideType.flow ∧ s.diagram.isSome = true) ∧
      (∀ s ∈ out, s ∈ l ∨ ∃ x ∈ l, s = flowify x) := by
  unfold ensureFlow
  split_ifs with hfl
  · refine ⟨l, rfl, rfl, rfl, rfl, ?_, fun s hs => Or.inl hs⟩
    rw [List.any_eq_true] at hfl
    obtain ⟨s, hs, hp⟩ := hfl
    simp only [decide_eq_true_eq] at hp
    exact ⟨s, hs, hp⟩
  · dsimp only
    have hmid1 : (1 : Int) ≤ max 1 (min ((l.length : Int) - 2) ((l.length : Int) / 2)) := by
      omega
    have hmid2 : max 1 (min ((l.length : Int) - 2) ((l.length : Int) / 2)) ≤
        (l.length : Int) - 2 := by
      omega
    set mid := max 1 (min ((l.length : Int) - 2) ((l.length : Int) / 2)) with hmid
    have hlt : mid.toNat < l.length := by omega
    rw [dif_pos hlt]
    have hm0 : mid.toNat ≠ 0 := by omega
    have hmlast : mid.toNat ≠ l.length - 1 := by omega
    refine ⟨_, rfl, List.length_set l mid.toNat _, ?_, ?_, ?_, ?_⟩
    · rw [List.head?_eq_getElem?, List.head?_eq_getElem?,
          List.getElem?_set_ne (by omega)]
    · rw [List.getLast?_eq_getElem?, List.getLast?_eq_getElem?, List.length_set]
      rw [List.getElem?_set_ne (by omega)]
    · refine ⟨flowify (l.get ⟨mid.toNat, hlt⟩), ?_, rfl, rfl⟩
      exact List.mem_iff_getElem.mpr
        ⟨mid.toNat, by rw [List.length_set]; exact hlt, List.getElem_set_self _⟩
    · intro s hs
      rcases List.mem_or_eq_of_mem_set hs with hs | rfl
      · exact Or.inl hs
      · exact Or.inr ⟨_, List.get_mem _ _ _, rfl⟩

/-- The facts established by the normalizer pipeline (count enforcement,
role forcing, bullet coercion, flow forcing) on any input slide list, for
a requested count of at least 3. -/
theorem pipeline_facts (l0 : List SlideSpec) (topic : String) {n : Int} (hn : 3 ≤ n) :
    ∃ out, ensureFlow (bulletCoerceAll (forceSummary (forceIntro
        (enforceCount l0 n topic)))) = some out ∧
      out.length = n.toNat ∧
      (out.head?.map SlideSpec.type = some SlideType.intro) ∧
      (out.getLast?.map SlideSpec.type = some SlideType.summary) ∧
      (∃ s ∈ out, s.type = SlideType.flow ∧ s.diagram.isSome = true) ∧
      (∀ s ∈ out, (s.type = SlideType.process ∨ s.type = SlideType.summary) →
        BulletContent s.content) ∧
      ((∀ s ∈ l0, s.validB = true) → ∀ s ∈ out, s.validB = true) := by
  have hn0 : (3 : Nat) ≤ n.toNat := by omega
  set l1 := enforceCount l0 n topic with hl1
  have hl1len : l1.length = n.toNat := enforceCount_length l0 n (by omega) topic
  have hl1mem : ∀ s ∈ l1, s ∈ l0 ∨ ∃ i, s = padProcessSlide i topic := enforceCount_mem
  obtain ⟨a, t, hat⟩ : ∃ a t, l1 = a :: t := by
    cases hc : l1 with
    | nil =>
      rw [hc] at hl1len
      simp at hl1len
      omega
    | cons a t => exact ⟨a, t, rfl⟩
  have htlen : t.length = n.toNat - 1 := by
    rw [hat] at hl1len
    simp at hl1len
    omega
  have htne : t ≠ [] := by
    intro hcon
    rw [hcon] at htlen
    simp at htlen
    omega
  set a' := if a.type = SlideType.intro then a else { a with type := SlideType.intro }
    with ha'
  have hfi : forceIntro l1 = a' :: t := by rw [hat]; rfl
  have ha'type : a'.type = SlideType.intro := by
    rw [ha']
    by_cases h : a.type = SlideType.intro
    · rw [if_pos h]
      exact h
    · rw [if_neg h]
  have ha'valid : a'.validB = a.validB := by
    rw [ha']
    by_cases h : a.type = SlideType.intro
    · rw [if_pos h]
    · rw [if_neg h]
      rfl
  obtain ⟨g, hg⟩ : ∃ g, (a' :: t).getLast? = some g := by
    cases hc : (a' :: t).getLast? with
    | none =>
      rw [List.getLast?_eq_none_iff] at hc
      cases hc
    | some g => exact ⟨g, rfl⟩
  have hgmem : g ∈ a' :: t := List.mem_of_mem_getLast? hg
  set g' := if g.type = SlideType.summary then g
    else { g with type := SlideType.summary, title := "Summary" } with hg'
  have hg'type : g'.type = SlideType.summary := by
    rw [hg']
    by_cases h : g.type = SlideType.summary
    · rw [if_pos h]
      exact h
    · rw [if_neg h]
  have hg'valid : g'.validB = g.validB := by
    rw [hg']
    by_cases h : g.type = SlideType.summary
    · rw [if_pos h]
    · rw [if_neg h]
      rfl
  have hfs : forceSummary (a' :: t) = a' :: (t.dropLast ++ [g']) := by
    rw [forceSummary_of_getLast hg]
    rw [List.dropLast_cons_of_ne_nil htne]
    rfl
  set l3 := a' :: (t.dropLast ++ [g']) with hl3
  have hl3len : l3.length = n.toNat := by
    rw [hl3]
    simp [List.length_dropLast]
    omega
  have hl3last : l3.getLast? = some g' := by
    rw [hl3]
    rw [show a' :: (t.dropLast ++ [g']) = (a' :: t.dropLast) ++ [g'] from rfl]
    exact List.getLast?_concat _
  have hl3mem : ∀ s ∈ l3, s = a' ∨ s = g' ∨ s ∈ t := by
    intro s hs
    rw [hl3] at hs
    rcases List.mem_cons.mp hs with rfl | hs
    · exact Or.inl rfl
    · rcases List.mem_append.mp hs with hs | hs
      · exact Or.inr (Or.inr (List.dropLast_subset _ hs))
      · rw [List.mem_singleton.mp hs]
        exact Or.inr (Or.inl rfl)
  -- stage 4: bullet coercion is a map
  set f := fun s : SlideSpec =>
    if s.type = SlideType.process ∨ s.type = SlideType.summary then
      { s with content := bulletize s.content } else s with hf
  have hbc : bulletCoerceAll l3 = l3.map f := rfl
  have hftype : ∀ s, (f s).type = s.type := by
    intro s
    simp only [hf]
    split_ifs <;> rfl
  have hfvalid : ∀ s, (f s).validB = s.validB := by
    intro s
    exact bulletCoerce_slide_validB s
  have hfbul : ∀ s, ((f s).type = SlideType.process ∨ (f s).type = SlideType.summary) →
      BulletContent (f s).content := by
    intro s htys
    by_cases h : s.type = SlideType.process ∨ s.type = SlideType.summary
    · simp only [hf, if_pos h]
      exact bulletize_bullets _
    · exact absurd (by rw [hftype s] at htys; exact htys) h
  set l4 := l3.map f with hl4
  have hl4len : l4.length = n.toNat := by
    rw [hl4, List.length_map]
    exact hl3len
  have hl4head : l4.head?.map SlideSpec.type = some SlideType.intro := by
    rw [hl4, hl3]
    simp only [List.map_cons, List.head?_cons, Option.map_some']
    rw [hftype a', ha'type]
  have hl4last : l4.getLast?.map SlideSpec.type = some SlideType.summary := by
    rw [hl4, List.getLast?_map, hl3last]
    simp only [Option.map_some']
    rw [hftype g', hg'type]
  have hl4bul : ∀ s ∈ l4, (s.type = SlideType.process ∨ s.type = SlideType.summary) →
      BulletContent s.content := by
    intro s hs
    rw [hl4, List.mem_map] at hs
    obtain ⟨x, -, rfl⟩ := hs
    exact hfbul x
  have hl4valid : (∀ s ∈ l0, s.validB = true) → ∀ s ∈ l4, s.validB = true := by
    intro h0 s hs
    rw [hl4, List.mem_map] at hs
    obtain ⟨x, hx, rfl⟩ := hs
    rw [hfvalid]
    rcases hl3mem x hx with rfl | hx3
    · rw [ha'valid]
      rcases hl1mem a (by rw [hat]; simp) with ha | ⟨i, rfl⟩
      · exact h0 a ha
      · exact padProcessSlide_validB i topic
    · have hxval : ∀ y, y ∈ t → y.validB = true := by
        intro y hy
        rcases hl1mem y (by rw [hat]; exact List.mem_cons_of_mem _ hy) with hy0 | ⟨i, rfl⟩
        · exact h0 y hy0
        · exact padProcessSlide_validB i topic
      rcases hx3 with rfl | hx3
      · rw [hg'valid]
        rcases List.mem_cons.mp hgmem with rfl | hgt
        · rw [ha'valid]
          rcases hl1mem a (by rw [hat]; simp) with ha | ⟨i, rfl⟩
          · exact h0 a ha
          · exact padProcessSlide_validB i topic
        · exact hxval g hgt
      · exact hxval x hx3
  -- stage 5: flow forcing
  obtain ⟨out, hout, houtlen, houthead, houtlast, houtflow, houtmem⟩ :=
    ensureFlow_facts l4 (by omega)
  refine ⟨out, ?_, by omega, ?_, ?_, houtflow, ?_, ?_⟩
  · rw [hfi, hfs, hbc]
    exact hout
  · rw [houthead]
    exact hl4head
  · rw [houtlast]
    exact hl4last
  · intro s hs htys
    rcases houtmem s hs with hs4 | ⟨x, -, rfl⟩
    · exact hl4bul s hs4 htys
    · exfalso
      rcases htys with h | h <;> cases h
  · intro h0 s hs
    rcases houtmem s hs with hs4 | ⟨x, -, rfl⟩
    · exact hl4valid h0 s hs4
    · exact flowify_validB x

/-! ## Facts about the deterministic fallback deck -/

theorem mock_slides_all_validB (topic : String) (n : Int) :
    ∀ s ∈ (mockPresentation topic n).slides, s.validB = true := by
  intro s hs
  unfold mockPresentation pySliceTo at hs
  have hs' : s ∈ ([mockIntroSlide topic, mockCoreSlide, mockFlowSlide] ++
      (List.range (max (n - 1) 3 - 3).toNat).map (fun j => mockPadSlide (3 + j)) ++
      [mockSummarySlide]) := by
    dsimp only at hs
    split_ifs at hs <;> exact List.mem_of_mem_take hs
  rw [List.mem_append] at hs'
  rcases hs' with hs' | hs'
  · rw [List.mem_append] at hs'
    rcases hs' with hs' | hs'
    · simp only [List.mem_cons, List.not_mem_nil, or_false] at hs'
      rcases hs' with rfl | rfl | rfl <;> rfl
    · rw [List.mem_map] at hs'
      obtain ⟨j, -, rfl⟩ := hs'
      rfl
  · rw [List.mem_singleton.mp hs']
    rfl

theorem mock_length (topic : String) (n : Int) (hn : 0 ≤ n) :
    (mockPresentation topic n).slides.length = n.toNat := by
  unfold mockPresentation pySliceTo
  dsimp only
  rw [if_pos hn]
  simp only [List.length_take, List.length_append, List.length_map, List.length_range,
    List.length_cons, List.length_nil]
  omega

theorem mock_validSlidesB {topic : String} {n : Int} (hn : 2 ≤ n) :
    validSlidesB (mockPresentation topic n).slides = true := by
  unfold validSlidesB
  rw [Bool.and_eq_true]
  constructor
  · have hne : (mockPresentation topic n).slides ≠ [] := by
      intro h
      have := mock_length topic n (by omega)
      rw [h] at this
      simp at this
      omega
    simp [List.isEmpty_iff, hne]
  · rw [List.all_eq_true]
    intro s hs
    exact mock_slides_all_validB topic n s hs

/-! ## Totality and invariants of the normalizer -/

theorem forceIntro_length (l : List SlideSpec) : (forceIntro l).length = l.length := by
  cases l <;> rfl

theorem forceSummary_length (l : List SlideSpec) :
    (forceSummary l).length = l.length := by
  unfold forceSummary
  cases hg : l.getLast? with
  | none => rfl
  | some g =>
    have hne : l ≠ [] := by
      intro h
      rw [h] at hg
      cases hg
    simp [List.length_dropLast]
    have : 1 ≤ l.length := List.length_pos.mpr hne
    omega

theorem bulletCoerceAll_length (l : List SlideSpec) :
    (bulletCoerceAll l).length = l.length := List.length_map _ _

theorem ensureFlow_isSome {l : List SlideSpec} (hlen : 2 ≤ l.length) :
    (ensureFlow l).isSome = true := by
  unfold ensureFlow
  split_ifs with hfl
  · rfl
  · dsimp only
    rw [dif_pos (by omega)]
    rfl

/-- **C2 (amended).** For every spec (null included), topic, and slide
count of at least 2, `normalize_presentation_spec` returns a
`PresentationSpec` and lets no exception escape.  (For smaller or negative
slide counts it can raise; see the counterexample.) -/
theorem normalize_total (spec : Option PresentationSpec) (topic : String)
    {n : Int} (hn : 2 ≤ n) :
    (normalizePresentationSpec spec topic n).isSome = true := by
  have hmock : (validateP (mockPresentation topic n)).isSome = true := by
    unfold validateP
    rw [if_pos (mock_validSlidesB hn)]
    rfl
  unfold normalizePresentationSpec
  cases spec with
  | none => exact hmock
  | some sp =>
    dsimp only
    by_cases hsl : sp.slides = []
    · rw [if_pos hsl]
      exact hmock
    · rw [if_neg hsl]
      have hlen : (enforceCount sp.slides n topic).length = n.toNat :=
        enforceCount_length sp.slides n (by omega) topic
      have hne : ¬ enforceCount sp.slides n topic = [] := by
        intro h
        rw [h] at hlen
        simp at hlen
        omega
      rw [if_neg hne]
      have hlen4 : 2 ≤ (bulletCoerceAll (forceSummary (forceIntro
          (enforceCount sp.slides n topic)))).length := by
        rw [bulletCoerceAll_length, forceSummary_length, forceIntro_length, hlen]
        omega
      rcases hef : ensureFlow (bulletCoerceAll (forceSummary (forceIntro
          (enforceCount sp.slides n topic)))) with _ | out
      · exact absurd (ensureFlow_isSome hlen4) (by rw [hef]; simp)
      · dsimp only
        by_cases hv : validSlidesB out = true
        · rw [if_pos hv]
          rfl
        · rw [if_neg hv]
          exact hmock

/-- C2's unrestricted totality is false on the code: with a null spec and
slide count 0, `mock_presentation` returns zero slides and
`PresentationSpec.model_validate` raises a `ValidationError` that escapes
`normalize_presentation_spec`. -/
theorem normalize_total_counterexample :
    normalizePresentationSpec none "Photosynthesis" 0 = none := rfl

/-- Witness for C2 at slide count 2 and a null spec. -/
theorem normalize_total_witness :
    (normalizePresentationSpec none "Photosynthesis" 2).isSome = true :=
  normalize_total none "Photosynthesis" (by decide)

/-- **C1 (amended).** For every pydantic-valid non-null spec, topic, and
slide count of at least 3, the normalized deck has exactly `slide_count`
slides, slide 0 has role intro, the last slide has role summary, at least
one slide has role flow with a non-null diagram, and every
process/summary slide's content is a newline-delimited hyphen-bulleted
list of at most 8 bullets (with no per-bullet character bound). -/
theorem normalize_invariants (sp : PresentationSpec) (topic : String) (n : Int)
    (hvalid : sp.Valid) (hn : 3 ≤ n) :
    ∃ p, normalizePresentationSpec (some sp) topic n = some p ∧
      p.slides.length = n.toNat ∧
      (p.slides.head?.map SlideSpec.type = some SlideType.intro) ∧
      (p.slides.getLast?.map SlideSpec.type = some SlideType.summary) ∧
      (∃ s ∈ p.slides, s.type = SlideType.flow ∧ s.diagram.isSome = true) ∧
      (∀ s ∈ p.slides, (s.type = SlideType.process ∨ s.type = SlideType.summary) →
        BulletContent s.content) := by
  unfold PresentationSpec.Valid validSlidesB at hvalid
  rw [Bool.and_eq_true] at hvalid
  have hsl : sp.slides ≠ [] := by
    intro h
    rw [h] at hvalid
    simp at hvalid
  have hall : ∀ s ∈ sp.slides, s.validB = true := List.all_eq_true.mp hvalid.2
  obtain ⟨out, hout, hlen, hhead, hlast, hflow, hbul, htrans⟩ :=
    pipeline_facts sp.slides topic hn
  have hvout : validSlidesB out = true := by
    unfold validSlidesB
    rw [Bool.and_eq_true]
    constructor
    · have : out ≠ [] := by
        intro h
        rw [h] at hlen
        simp at hlen
        omega
      simp [List.isEmpty_iff, this]
    · exact List.all_eq_true.mpr (htrans hall)
  refine ⟨⟨pyOr sp.title topic, out⟩, ?_, hlen, hhead, hlast, hflow, hbul⟩
  unfold normalizePresentationSpec
  dsimp only
  rw [if_neg hsl]
  have hne : ¬ enforceCount sp.slides n topic = [] := by
    intro h
    have := enforceCount_length sp.slides n (by omega) topic
    rw [h] at this
    simp at this
    omega
  rw [if_neg hne, hout]
  dsimp only
  rw [if_pos hvout]

/-- The five invariants exactly as the claim states them, with the
120-character per-bullet bound included. -/
def ClaimInvariants (p : PresentationSpec) (slide_count : Int) : Prop :=
  p.slides.length = slide_count.toNat ∧
  (p.slides.head?.map SlideSpec.type = some SlideType.intro) ∧
  (p.slides.getLast?.map SlideSpec.type = some SlideType.summary) ∧
  (∃ s ∈ p.slides, s.type = SlideType.flow ∧ s.diagram.isSome = true) ∧
  (∀ s ∈ p.slides, (s.type = SlideType.process ∨ s.type = SlideType.summary) →
    ∃ bs : List String, bs.length ≤ 8 ∧
      (∀ b ∈ bs, pyStartsWith b "- " = true ∧ b.length ≤ 120) ∧
      s.content = pyJoin "\n" bs)

/-- C1 as stated is false on the code: with a null spec the normalizer
returns `mock_presentation` unchanged, whose "Core Components" process
slide carries plain prose, not a hyphen-bulleted list. -/
theorem normalize_claim_counterexample :
    ¬ (∀ p, normalizePresentationSpec none "Photosynthesis" 6 = some p →
        ClaimInvariants p 6) := by
  intro h
  have hp := h (mockPresentation "Photosynthesis" 6) rfl
  obtain ⟨-, -, -, -, hbul⟩ := hp
  have hmem : mockCoreSlide ∈ (mockPresentation "Photosynthesis" 6).slides := by decide
  obtain ⟨bs, hlen8, hall, heq⟩ := hbul mockCoreSlide hmem (Or.inl rfl)
  have hstarts := BulletContent_starts ⟨bs, hlen8, fun b hb => (hall b hb).1, heq⟩
  rcases hstarts with h1 | h1
  · exact absurd h1 (by decide)
  · exact absurd h1 (by decide)

/-- Witness for C1 at a concrete one-slide valid spec and slide count 4. -/
theorem normalize_invariants_witness :
    (normalizePresentationSpec
      (some { title := "T",
              slides := [{ type := SlideType.process, title := "a",
                           content := "Hello", keywords := [] }] })
      "t" 4).isSome = true := by
  obtain ⟨p, hp, -⟩ := normalize_invariants
    { title := "T",
      slides := [{ type := SlideType.process, title := "a",
                   content := "Hello", keywords := [] }] }
    "t" 4 (by rfl) (by decide)
  rw [hp]
  rfl

/-! ## Second-run stability of the normalizer (C6) -/

/-- Everything in a slide except its `content` field. -/
structure SlideShape where
  type : SlideType
  title : String
  keywords : List String
  image_query : Option String
  image_alt : Option String
  image_subject : Option String
  image_setting : Option String
  image_style : Option String
  layout_preference : Option String
  emphasis : Option String
  diagram : Option DiagramSpec
  deriving DecidableEq, Repr

/-- Projection of a slide onto all fields but `content`. -/
def SlideSpec.shape (s : SlideSpec) : SlideShape :=
  ⟨s.type, s.title, s.keywords, s.image_query, s.image_alt, s.image_subject,
   s.image_setting, s.image_style, s.layout_preference, s.emphasis, s.diagram⟩

theorem bulletCoerce_slide_shape (s : SlideSpec) :
    (if s.type = SlideType.process ∨ s.type = SlideType.summary then
      { s with content := bulletize s.content } else s).shape = s.shape := by
  split_ifs <;> rfl

theorem bulletCoerceAll_shape (l : List SlideSpec) :
    (bulletCoerceAll l).map SlideSpec.shape = l.map SlideSpec.shape := by
  unfold bulletCoerceAll
  rw [List.map_map]
  apply List.map_congr_left
  intro s _
  exact bulletCoerce_slide_shape s

theorem bulletCoerce_slide_diagram (s : SlideSpec) :
    (if s.type = SlideType.process ∨ s.type = SlideType.summary then
      { s with content := bulletize s.content } else s).diagram = s.diagram := by
  split_ifs <;> rfl

theorem bulletCoerce_slide_type (s : SlideSpec) :
    (if s.type = SlideType.process ∨ s.type = SlideType.summary then
      { s with content := bulletize s.content } else s).type = s.type := by
  split_ifs <;> rfl

theorem isEmpty_map {α β : Type} (f : α → β) (l : List α) :
    (l.map f).isEmpty = l.isEmpty := by
  cases l <;> rfl

theorem bulletCoerceAll_validSlidesB (l : List SlideSpec) :
    validSlidesB (bulletCoerceAll l) = validSlidesB l := by
  unfold validSlidesB bulletCoerceAll
  rw [isEmpty_map]
  congr 1
  rw [List.all_map]
  have hcomp : (SlideSpec.validB ∘ fun s : SlideSpec =>
      if s.type = SlideType.process ∨ s.type = SlideType.summary then
        { s with content := bulletize s.content } else s) = SlideSpec.validB :=
    funext fun s => bulletCoerce_slide_validB s
  rw [hcomp]

theorem pyOr_self (a : String) : pyOr a a = a := by
  unfold pyOr
  split_ifs <;> rfl

theorem pyOr_idem (a b : String) : pyOr (pyOr a b) b = pyOr a b := by
  unfold pyOr
  by_cases h : a = ""
  · rw [if_pos h]
    split_ifs <;> rfl
  · rw [if_neg h, if_neg h]

theorem enforceCount_of_length_eq {l : List SlideSpec} {n : Int} (topic : String)
    (hn : 0 ≤ n) (hlen : l.length = n.toNat) :
    enforceCount l n topic = l := by
  unfold enforceCount
  dsimp only
  have h1 : ¬ ((l.length : Int) > n) := by omega
  rw [if_neg h1]
  have h2 : (n - (l.length : Int)).toNat = 0 := by omega
  rw [h2]
  simp

/-- A deck already satisfying the normalizer's structural invariants is
changed only by re-running bullet coercion on its contents: the second run
succeeds and returns the same deck up to process/summary content. -/
theorem normalize_stable {d : PresentationSpec} (topic : String) {n : Int}
    (hn : 3 ≤ n)
    (hlen : d.slides.length = n.toNat)
    (hhead : d.slides.head?.map SlideSpec.type = some SlideType.intro)
    (hlast : d.slides.getLast?.map SlideSpec.type = some SlideType.summary)
    (hflow : ∃ s ∈ d.slides, s.type = SlideType.flow ∧ s.diagram.isSome = true)
    (hvalid : validSlidesB d.slides = true) :
    normalizePresentationSpec (some d) topic n =
      some ⟨pyOr d.title topic, bulletCoerceAll d.slides⟩ := by
  have hne : d.slides ≠ [] := by
    intro h
    rw [h] at hlen
    simp at hlen
    omega
  unfold normalizePresentationSpec
  dsimp only
  rw [if_neg hne]
  rw [enforceCount_of_length_eq topic (by omega) hlen]
  rw [if_neg hne]
  -- force-intro is the identity: the head already has role intro
  obtain ⟨a, t, hat⟩ : ∃ a t, d.slides = a :: t := by
    cases hc : d.slides with
    | nil => exact absurd hc hne
    | cons a t => exact ⟨a, t, rfl⟩
  have hatype : a.type = SlideType.intro := by
    rw [hat] at hhead
    simp only [List.head?_cons, Option.map_some'] at hhead
    exact Option.some.inj hhead
  have hfi : forceIntro d.slides = d.slides := by
    rw [hat, forceIntro_cons, if_pos hatype]
  rw [hfi]
  -- force-summary is the identity: the last slide already has role summary
  obtain ⟨g, hg⟩ : ∃ g, d.slides.getLast? = some g := by
    cases hc : d.slides.getLast? with
    | none =>
      rw [List.getLast?_eq_none_iff] at hc
      exact absurd hc hne
    | some g => exact ⟨g, rfl⟩
  have hgtype : g.type = SlideType.summary := by
    rw [hg] at hlast
    simp only [Option.map_some'] at hlast
    exact Option.some.inj hlast
  have hfs : forceSummary d.slides = d.slides := by
    rw [forceSummary_of_getLast hg, if_pos hgtype]
    have hgl : g = d.slides.getLast hne := by
      rw [List.getLast?_eq_getLast d.slides hne] at hg
      exact (Option.some.inj hg).symm
    rw [hgl]
    exact List.dropLast_concat_getLast hne
  rw [hfs]
  -- the coerced deck still has its flow slide, so ensure-flow is a no-op
  have hany : (bulletCoerceAll d.slides).any
      (fun s => s.type = SlideType.flow ∧ s.diagram.isSome) = true := by
    rw [List.any_eq_true]
    obtain ⟨s, hs, hst, hsd⟩ := hflow
    refine ⟨(fun s : SlideSpec =>
      if s.type = SlideType.process ∨ s.type = SlideType.summary then
        { s with content := bulletize s.content } else s) s, ?_, ?_⟩
    · exact List.mem_map_of_mem _ hs
    · rw [decide_eq_true_eq, bulletCoerce_slide_type, bulletCoerce_slide_diagram]
      exact ⟨hst, hsd⟩
  have hef : ensureFlow (bulletCoerceAll d.slides) = some (bulletCoerceAll d.slides) := by
    unfold ensureFlow
    rw [if_pos hany]
  rw [hef]
  dsimp only
  rw [if_pos (by rw [bulletCoerceAll_validSlidesB]; exact hvalid)]

theorem mock_slides_eq {topic : String} {n : Int} (hn : 4 ≤ n) :
    (mockPresentation topic n).slides =
      [mockIntroSlide topic, mockCoreSlide, mockFlowSlide] ++
      (List.range (n - 4).toNat).map (fun j => mockPadSlide (3 + j)) ++
      [mockSummarySlide] := by
  unfold mockPresentation pySliceTo
  dsimp only
  rw [if_pos (by omega : (0 : Int) ≤ n)]
  have hpad : (max (n - 1) 3 - 3).toNat = (n - 4).toNat := by omega
  rw [hpad]
  have hlen : ([mockIntroSlide topic, mockCoreSlide, mockFlowSlide] ++
      (List.range (n - 4).toNat).map (fun j => mockPadSlide (3 + j)) ++
      [mockSummarySlide]).length = n.toNat := by
    simp only [List.length_append, List.length_map, List.length_range,
      List.length_cons, List.length_nil]
    omega
  rw [← hlen]
  exact List.take_length _

/-- The structural invariants hold for the fallback deck whenever at least
4 slides are requested. -/
theorem mock_facts (topic : String) (n : Int) (hn : 4 ≤ n) :
    (mockPresentation topic n).slides.length = n.toNat ∧
    ((mockPresentation topic n).slides.head?.map SlideSpec.type =
      some SlideType.intro) ∧
    ((mockPresentation topic n).slides.getLast?.map SlideSpec.type =
      some SlideType.summary) ∧
    (∃ s ∈ (mockPresentation topic n).slides,
      s.type = SlideType.flow ∧ s.diagram.isSome = true) ∧
    validSlidesB (mockPresentation topic n).slides = true ∧
    (mockPresentation topic n).title = topic := by
  refine ⟨mock_length topic n (by omega), ?_, ?_, ?_, mock_validSlidesB (by omega), rfl⟩
  · rw [mock_slides_eq hn]
    rfl
  · rw [mock_slides_eq hn]
    rw [List.getLast?_concat]
    rfl
  · rw [mock_slides_eq hn]
    exact ⟨mockFlowSlide, by simp, rfl, rfl⟩

/-- Any first run of the normalizer with at least 4 requested slides
yields a deck satisfying the structural invariants, with a title of the
form the second run leaves unchanged. -/
theorem first_run_facts (doc : Option PresentationSpec) (topic : String) {n : Int}
    (hn : 4 ≤ n) :
    ∃ d, normalizePresentationSpec doc topic n = some d ∧
      d.slides.length = n.toNat ∧
      (d.slides.head?.map SlideSpec.type = some SlideType.intro) ∧
      (d.slides.getLast?.map SlideSpec.type = some SlideType.summary) ∧
      (∃ s ∈ d.slides, s.type = SlideType.flow ∧ s.diagram.isSome = true) ∧
      validSlidesB d.slides = true ∧
      pyOr d.title topic = d.title := by
  obtain ⟨hmlen, hmhead, hmlast, hmflow, hmvalid, hmtitle⟩ :=
    mock_facts topic n hn
  have hmockcase : validateP (mockPresentation topic n) =
      some (mockPresentation topic n) := by
    unfold validateP
    rw [if_pos hmvalid]
  have hmockres : ∃ d, validateP (mockPresentation topic n) = some d ∧
      d.slides.length = n.toNat ∧
      (d.slides.head?.map SlideSpec.type = some SlideType.intro) ∧
      (d.slides.getLast?.map SlideSpec.type = some SlideType.summary) ∧
      (∃ s ∈ d.slides, s.type = SlideType.flow ∧ s.diagram.isSome = true) ∧
      validSlidesB d.slides = true ∧
      pyOr d.title topic = d.title := by
    refine ⟨mockPresentation topic n, hmockcase, hmlen, hmhead, hmlast, hmflow,
      hmvalid, ?_⟩
    rw [hmtitle]
    exact pyOr_self topic
  cases doc with
  | none => exact hmockres
  | some sp =>
    unfold normalizePresentationSpec
    dsimp only
    by_cases hsl : sp.slides = []
    · rw [if_pos hsl]
      exact hmockres
    · rw [if_neg hsl]
      have hne : ¬ enforceCount sp.slides n topic = [] := by
        intro h
        have := enforceCount_length sp.slides n (by omega) topic
        rw [h] at this
        simp at this
        omega
      rw [if_neg hne]
      obtain ⟨out, hout, hlen, hhead, hlast, hflow, hbul, htrans⟩ :=
        pipeline_facts sp.slides topic (by omega : (3 : Int) ≤ n)
      rw [hout]
      dsimp only
      by_cases hv : validSlidesB out = true
      · rw [if_pos hv]
        refine ⟨⟨pyOr sp.title topic, out⟩, rfl, hlen, hhead, hlast, hflow, hv, ?_⟩
        exact pyOr_idem sp.title topic
      · rw [if_neg hv]
        exact hmockres

/-- **C6 (amended).** For every document (null included), topic, and slide
count of at least 4, re-normalizing the normalizer's output succeeds and
returns the same deck up to process/summary slide contents: the title and
every slide's shape (role, title, keywords, image fields, diagram) are
unchanged; full equality can fail because single-bullet or prose contents
are re-coerced (see the counterexample). -/
theorem normalize_projection_idempotent (doc : Option PresentationSpec)
    (topic : String) (n : Int) (hn : 4 ≤ n) :
    ∃ d d', normalizePresentationSpec doc topic n = some d ∧
      normalizePresentationSpec (some d) topic n = some d' ∧
      d'.title = d.title ∧
      d'.slides.map SlideSpec.shape = d.slides.map SlideSpec.shape := by
  obtain ⟨d, hd, hlen, hhead, hlast, hflow, hvalid, htitle⟩ :=
    first_run_facts doc topic hn
  refine ⟨d, ⟨pyOr d.title topic, bulletCoerceAll d.slides⟩, hd, ?_, ?_, ?_⟩
  · exact normalize_stable topic (by omega) hlen hhead hlast hflow hvalid
  · exact htitle
  · exact bulletCoerceAll_shape d.slides

/-- C6 as stated is false on the code: normalizing the already-normalized
fallback deck changes slide contents (prose process slides are re-split
into bullets on the second pass). -/
theorem normalize_idempotent_counterexample :
    (normalizePresentationSpec none "t" 4).bind
        (fun d => normalizePresentationSpec (some d) "t" 4) ≠
      normalizePresentationSpec none "t" 4 := by
  decide

/-- Witness for C6 at a null document and slide count 4. -/
theorem normalize_projection_idempotent_witness :
    ((normalizePresentationSpec none "t" 4).bind
        (fun d => normalizePresentationSpec (some d) "t" 4)).isSome = true := by
  obtain ⟨d, d', hd, hd', -, -⟩ :=
    normalize_projection_idempotent none "t" 4 (by decide)
  rw [hd, Option.some_bind, hd']
  rfl
